import Mathlib

/-!
Verification development for the aequitas-flow information-flow network core
(`flow.py`): sites, channels, the network registry, and the topological
leveling algorithm `compute_order`.

Python objects are embedded shallowly: `Site` and `Channel` objects are
identified by their id strings, the two dicts `Network._sites` and
`Network._channels` become insertion-ordered association lists, and in-place
mutation becomes functional update of the `Network` record.  Exceptions
become `Except` / explicit error options; a raised exception keeps all
mutations performed before the raise, exactly as in Python.
-/

namespace Aequitas

/-- Structured form of the exceptions raised by flow.py.  Python formats
human-readable messages from labels and ids; we record the identifying data
instead of the rendered text. -/
inductive FlowErr where
  /-- `AttributeError("Invalid arguments for Site initialization.")` -/
  | invalidSiteArgs
  /-- `Exception("A site can only be the output of one channel. ...")`;
  the message names the site and its existing producer channel. -/
  | singleProducer (siteId : String) (producerId : String)
  /-- `KeyError` from `Network.site` / `Network.channel` lookup. -/
  | keyError (key : String)
  /-- `AttributeError("Site ... does not contain the site ...")` -/
  | notContains (parentId : String) (childId : String)
  /-- `AttributeError` for reading an attribute that was never assigned. -/
  | attrMissing (attr : String)
  /-- `ValueError` from `list.remove` in `Channel.discard_input`. -/
  | valueErrorRemove (siteId : String)
deriving DecidableEq

/-- A fragment of the Python value universe, used to embed the comparison
that `x in s` performs when `s` is a set of `(str, Site)` tuples. -/
inductive PyVal where
  | str (s : String)
  | pair (a b : PyVal)
  | siteObj (id : String)
deriving DecidableEq

/-- The `_sites` attribute of a `Site`.  The leaf branches of
`Site.__init__` assign the empty dict `{}`; the group branch assigns the SET
comprehension `{(a.id, a) for a in args}` (a set of tuples, not a dict).
We store the wrapped children by id and rebuild the tuples on demand. -/
inductive SubStore where
  | emptyDict
  | pairSet (childIds : List String)
deriving DecidableEq

/-- State of one `Site` object (minus its identity, which is the key it is
stored under).  `labelAttr = none` means the `label` attribute was never
assigned (the group branch of `Site.__init__` skips it); `some none` is
`label = None`; `some (some l)` is an explicit label. `srcAttr` records
whether `Channel.discard_output` has assigned the stray `_source` attribute
on this site. -/
structure SiteState where
  labelAttr : Option (Option String)
  producer : Option String
  level : Int
  subStore : SubStore
  srcAttr : Bool
deriving DecidableEq

/-- State of one `Channel` object: label, ordered source list, target set
(kept as an insertion-ordered duplicate-free list; the code only ever tests
membership, inserts, removes, and assigns every member the same level, so
set iteration order is irrelevant), and level. -/
structure ChannelState where
  label : String
  source : List String
  target : List String
  level : Int
deriving DecidableEq

/-- The `Network`: the two id-keyed insertion-ordered dicts plus the two id
counters.  Python initializes the counters to `-1` and pre-increments; we
store the number of ids handed out so far, which is the next suffix. -/
structure Network where
  sites : List (String × SiteState)
  channels : List (String × ChannelState)
  siteIx : Nat
  channelIx : Nat
deriving DecidableEq

/-- Dict lookup in an association list (first entry wins; in a Python dict
keys are unique anyway). -/
def dictFind {β : Type} (m : List (String × β)) (k : String) : Option β :=
  (m.find? (fun p => p.1 = k)).map (fun p => p.2)

/-- In-place mutation of the object stored under key `k`. -/
def dictUpd {β : Type} (m : List (String × β)) (k : String) (f : β → β) :
    List (String × β) :=
  m.map (fun p => if p.1 = k then (p.1, f p.2) else p)

/-- Dict lookup specialized to the site registry. -/
def lookupS (m : List (String × SiteState)) (k : String) : Option SiteState :=
  dictFind m k

/-- Dict lookup specialized to the channel registry. -/
def lookupC (m : List (String × ChannelState)) (k : String) : Option ChannelState :=
  dictFind m k

/-- In-place mutation of the site object with id `k`. -/
def updS (m : List (String × SiteState)) (k : String) (f : SiteState → SiteState) :
    List (String × SiteState) :=
  dictUpd m k f

/-- In-place mutation of the channel object with id `k`. -/
def updC (m : List (String × ChannelState)) (k : String) (f : ChannelState → ChannelState) :
    List (String × ChannelState) :=
  dictUpd m k f

/-- Reading `s._level` through the registry.  In Python the reference is
always valid; the `none` fallback is arbitrary (it is 0, matching the value
the leveling pass would see for a root source site, see `canonSite`). -/
def sLevel (m : List (String × SiteState)) (k : String) : Int :=
  match lookupS m k with
  | some st => st.level
  | none => 0

/-- The argument forms `Site.__init__` and the `Network` dispatchers branch
on: a string, an existing `Site` object (carried by id), or any other
Python value. -/
inductive PyArg where
  | str (s : String)
  | siteObj (id : String)
  | other
deriving DecidableEq

/-- Does the Python test `all(isinstance(e, Site) for e in args)` hold? -/
def allSites (args : List PyArg) : Bool :=
  args.all (fun a => match a with | .siteObj _ => true | _ => false)

/-- Child ids of the site arguments (for the group branch). -/
def argSiteIds (args : List PyArg) : List String :=
  args.filterMap (fun a => match a with | .siteObj i => some i | _ => none)

/-- `Site.__init__` minus the id assignment: computes the initial state of
the new site object from the extra `*args`.  Mirrors the branch order of
the source: no args, a single string, all-`Site` args, otherwise error.
Note that the group branch assigns `_sites` but never assigns `label`. -/
def siteInitState (args : List PyArg) : Except FlowErr SiteState :=
  match args with
  | [] =>
      .ok { labelAttr := some none, producer := none, level := 4000,
            subStore := .emptyDict, srcAttr := false }
  | [.str l] =>
      .ok { labelAttr := some (some l), producer := none, level := 4000,
            subStore := .emptyDict, srcAttr := false }
  | _ =>
      if allSites args then
        .ok { labelAttr := none, producer := none, level := 4000,
              subStore := .pairSet (argSiteIds args), srcAttr := false }
      else
        .error .invalidSiteArgs

/-- The Python membership test `id in self._sites`.  For a leaf site,
`_sites` is the empty dict.  For a group site it is a set of
`(child_id, child)` tuples, so the test compares the string `id` against
tuples; such a comparison is never true. -/
def SubStore.containsStr (st : SubStore) (k : String) : Bool :=
  match st with
  | .emptyDict => false
  | .pairSet childIds =>
      childIds.any (fun cid => PyVal.str k = PyVal.pair (.str cid) (.siteObj cid))

/-- `Site.site(id)`: retrieve a subsite by id, or raise.  The subscript
`self._sites[id]` in the then-branch is dead code for every reachable
store (see `SubStore.containsStr`); we give it the looked-up id. -/
def siteGet (selfId : String) (st : SiteState) (childId : String) : Except FlowErr String :=
  if st.subStore.containsStr childId then .ok childId
  else .error (.notContains selfId childId)

/-- `Site._label()`: the label, or the id when `label is None`.  Reading
`self.label` raises `AttributeError` when the attribute was never assigned
(which is the case for group sites). -/
def siteLabelAcc (selfId : String) (st : SiteState) : Except FlowErr String :=
  match st.labelAttr with
  | none => .error (.attrMissing "label")
  | some none => .ok selfId
  | some (some l) => .ok l

/-- The fresh id `f'_s{self._site_ix}'` the network will hand to the next
site it creates. -/
def nextSiteId (nw : Network) : String := "_s" ++ toString nw.siteIx

/-- The fresh id `f'_c{self._channel_ix}'` for the next channel. -/
def nextChannelId (nw : Network) : String := "_c" ++ toString nw.channelIx

/-- One element step of `Channel.add_input` (the non-list branch): append
the site to `_source` unless already present.  Touches only the channel
object itself. -/
def addInputOne (cst : ChannelState) (s : String) : ChannelState :=
  if s ∈ cst.source then cst else { cst with source := cst.source ++ [s] }

/-- `Channel.add_input` over a list argument (elementwise recursion); a
single-site Python call corresponds to a one-element list. -/
def addInputMany (cst : ChannelState) (ss : List String) : ChannelState :=
  ss.foldl addInputOne cst

/-- One element step of `Channel.add_output`: if the producer of the site
is unset or this very channel, point the producer at this channel and
insert the site into `_target`; otherwise raise, naming the existing
producer.  On the error path nothing is mutated. -/
def addOutputOne (selfId : String) (cst : ChannelState) (sites : List (String × SiteState))
    (s : String) : Except FlowErr (ChannelState × List (String × SiteState)) :=
  match lookupS sites s with
  | none => .ok (cst, sites)
  | some st =>
      if st.producer = none ∨ st.producer = some selfId then
        .ok ({ cst with target := if s ∈ cst.target then cst.target else cst.target ++ [s] },
             updS sites s (fun st₀ => { st₀ with producer := some selfId }))
      else
        .error (.singleProducer s (st.producer.getD ""))

/-- `Channel.add_output` over a list argument.  The recursion aborts at the
first raising element but keeps the mutations already performed, exactly as
the Python loop does; the pair component of the result is the state reached
when the error (if any) was raised. -/
def addOutputMany (selfId : String) (cst : ChannelState) (sites : List (String × SiteState)) :
    List String → (ChannelState × List (String × SiteState)) × Option FlowErr
  | [] => ((cst, sites), none)
  | s :: rest =>
      match addOutputOne selfId cst sites s with
      | .ok (cst', sites') => addOutputMany selfId cst' sites' rest
      | .error e => ((cst, sites), some e)

/-- One element step of `Channel.discard_output`: when the site is in the
target set, remove it there and assign `sites._source = None` — a stray
attribute no other code reads.  The `_producer` reference is left in place
(the documented intent, clearing the producer, is what claim C1 states). -/
def discardOutputOne (cst : ChannelState) (sites : List (String × SiteState)) (s : String) :
    ChannelState × List (String × SiteState) :=
  if s ∈ cst.target then
    ({ cst with target := cst.target.erase s },
     updS sites s (fun st₀ => { st₀ with srcAttr := true }))
  else (cst, sites)

/-- `Channel.__init__`: draw a fresh id, start with empty source and
target, run `add_input(source)` then `add_output(target)`, and finally set
`_level = -1`.  When `add_output` raises, the partially built channel
object is returned to nobody (the exception propagates before
`Network.channel` could register it), but the site mutations performed so
far and the consumed id counter survive.  We model the level field as
already present on the failure path; the object is discarded there, so the
difference is unobservable. -/
def channelInit (nw : Network) (src tgt : List String) (label : Option String) :
    (Network × Option (String × ChannelState)) × Option FlowErr :=
  let cid := nextChannelId nw
  let nw₁ : Network := { nw with channelIx := nw.channelIx + 1 }
  let cst₀ : ChannelState :=
    { label := label.getD cid, source := [], target := [], level := -1 }
  let cst₁ := addInputMany cst₀ src
  match addOutputMany cid cst₁ nw₁.sites tgt with
  | ((cst₂, sites'), none) => (({ nw₁ with sites := sites' }, some (cid, cst₂)), none)
  | ((_, sites'), some e) => (({ nw₁ with sites := sites' }, none), some e)

/-- `Channel.add_output` called on a channel that is registered in the
network, with a single site argument: read the channel object, run the
step, write the mutations back.  On the error path nothing was mutated. -/
def addOutputNet (nw : Network) (cid : String) (s : String) : Network × Option FlowErr :=
  match lookupC nw.channels cid with
  | none => (nw, none)
  | some cst =>
      match addOutputOne cid cst nw.sites s with
      | .ok (cst', sites') =>
          ({ nw with channels := updC nw.channels cid (fun _ => cst'), sites := sites' }, none)
      | .error e => (nw, some e)

/-- `Channel.discard_output` on a registered channel, single site
argument. -/
def discardOutputNet (nw : Network) (cid : String) (s : String) : Network :=
  match lookupC nw.channels cid with
  | none => nw
  | some cst =>
      let (cst', sites') := discardOutputOne cst nw.sites s
      { nw with channels := updC nw.channels cid (fun _ => cst'), sites := sites' }

/-- Register a freshly constructed channel: the tail of the two-argument
branch of `Network.channel` (`self._channels[new.id] = new`).  When the
constructor raises, the exception propagates and nothing is registered. -/
def channelCreate (nw : Network) (src tgt : List String) :
    Network × Option String × Option FlowErr :=
  match channelInit nw src tgt none with
  | ((nw', some (cid, cst)), none) =>
      ({ nw' with channels := nw'.channels ++ [(cid, cst)] }, some cid, none)
  | ((nw', _), e) => (nw', none, e)

/-- `Network.site(*args, create=False)`: a single string argument is looked
up (or created on demand); every other argument shape falls off the end of
the `if` chain and silently returns `None`. -/
def siteCall (nw : Network) (args : List PyArg) (create : Bool) :
    Except FlowErr (Option String × Network) :=
  match args with
  | [.str a] =>
      if (lookupS nw.sites a).isSome then .ok (some a, nw)
      else if create then
        match siteInitState [.str a] with
        | .ok st =>
            let sid := nextSiteId nw
            .ok (some sid,
                 { nw with sites := nw.sites ++ [(sid, st)], siteIx := nw.siteIx + 1 })
        | .error e => .error e
      else .error (.keyError a)
  | _ => .ok (none, nw)

/-- Endpoint arguments of the two-argument branch of `Network.channel`, as
the id lists handed to `add_input` / `add_output`.  A `Site` argument
contributes its id; Python would store any other value raw in the source
list (never exercised here, and undefined downstream), which we embed as
the string itself or no id. -/
def argEndpoint (a : PyArg) : List String :=
  match a with
  | .siteObj i => [i]
  | .str s => [s]
  | .other => []

/-- `Network.channel(*args)`: one string argument is a lookup that raises
`KeyError` when unknown; exactly two arguments are a create call; every
other arity falls through and silently returns `None`.  The network
component of the result carries the mutations performed before a raise. -/
def channelCall (nw : Network) (args : List PyArg) :
    (Option String × Network) × Option FlowErr :=
  match args with
  | [.str a] =>
      if (lookupC nw.channels a).isSome then ((some a, nw), none)
      else ((none, nw), some (.keyError a))
  | [x, y] =>
      let (nw', cidOpt, e) := channelCreate nw (argEndpoint x) (argEndpoint y)
      ((cidOpt, nw'), e)
  | _ => ((none, nw), none)

/-! ### The leveling algorithm `Network.compute_order` -/

/-- Reset phase: every site with no producer goes to `-1`, every produced
site to the pending sentinel `1000`. -/
def resetLevels (nw : Network) : Network :=
  { nw with
    sites := nw.sites.map (fun p =>
      (p.1, { p.2 with level := if p.2.producer = none then -1 else 1000 })) }

/-- Body of the second reset loop for one channel: set the channel level to
`1000`, then force every source site still at `-1` to `0`. -/
def seedChannel (nw : Network) (cid : String) : Network :=
  let nw₁ := { nw with channels := updC nw.channels cid (fun c => { c with level := 1000 }) }
  match lookupC nw₁.channels cid with
  | none => nw₁
  | some c =>
      { nw₁ with
        sites := c.source.foldl
          (fun acc s => updS acc s
            (fun st => if st.level = -1 then { st with level := 0 } else st)) nw₁.sites }

/-- The second reset loop, over all channels in dict order. -/
def seedPhase (nw : Network) : Network :=
  (nw.channels.map Prod.fst).foldl seedChannel nw

/-- Promote every target site of a newly resolved channel to `i + 1`. -/
def promoteTargets (i : Int) (sites : List (String × SiteState)) (tgts : List String) :
    List (String × SiteState) :=
  tgts.foldl (fun acc s => updS acc s (fun st => { st with level := i + 1 })) sites

/-- One channel of the relaxation pass at step `i`.  The Bool component is
the `done` flag: any resolution clears it.  A channel already below `i` is
skipped; a channel with a source later than `i` is skipped; otherwise the
channel resolves at `i` and its targets are promoted to `i + 1`. -/
def stepChannel (i : Int) (acc : Network × Bool) (cid : String) : Network × Bool :=
  let (nw, done) := acc
  match lookupC nw.channels cid with
  | none => (nw, done)
  | some c =>
      if c.level < i then (nw, done)
      else if c.source.any (fun s => sLevel nw.sites s > i) then (nw, done)
      else
        let nw₁ := { nw with channels := updC nw.channels cid (fun cc => { cc with level := i }) }
        ({ nw₁ with sites := promoteTargets i nw₁.sites c.target }, false)

/-- One full pass of the relaxation loop over all channels, starting from
`done = True`. -/
def relaxPass (i : Int) (nw : Network) : Network × Bool :=
  (nw.channels.map Prod.fst).foldl (stepChannel i) (nw, true)

/-- The `while not done and i < len(channels) + 10` loop.  The fuel is the
number of iterations still allowed by the cap; the Int result is the final
value of `i`, which also counts the passes executed. -/
def relaxLoop : Nat → Int → Network → Network × Int
  | 0, i, nw => (nw, i)
  | fuel + 1, i, nw =>
      let (nw', done) := relaxPass i nw
      if done then (nw', i + 1) else relaxLoop fuel (i + 1) nw'

/-- Stable insertion of a channel entry into a list sorted ascending by
level (timsort is stable: an element is placed after existing entries with
a key not larger than its own). -/
def insertChanByLevel (x : String × ChannelState) :
    List (String × ChannelState) → List (String × ChannelState)
  | [] => [x]
  | y :: ys =>
      if y.2.level < x.2.level then y :: insertChanByLevel x ys else x :: y :: ys

/-- `dict(sorted(self._channels.items(), key=lambda x: x[1]._level))`. -/
def sortChansByLevel : List (String × ChannelState) → List (String × ChannelState)
  | [] => []
  | x :: xs => insertChanByLevel x (sortChansByLevel xs)

/-- Stable insertion of a source site into a list sorted ascending by the
key `-site_level` (that is, descending site level). -/
def insertSrcByLevel (sites : List (String × SiteState)) (x : String) :
    List String → List String
  | [] => [x]
  | y :: ys =>
      if -(sLevel sites y) < -(sLevel sites x) then y :: insertSrcByLevel sites x ys
      else x :: y :: ys

/-- `sorted(c._source, key=lambda x: -x._level)`. -/
def sortSrcByLevel (sites : List (String × SiteState)) : List String → List String
  | [] => []
  | x :: xs => insertSrcByLevel sites x (sortSrcByLevel sites xs)

/-- Sort the source list of every channel by descending site level. -/
def sortAllSources (nw : Network) : Network :=
  { nw with
    channels := nw.channels.map (fun p =>
      (p.1, { p.2 with source := sortSrcByLevel nw.sites p.2.source })) }

/-- Result of `compute_order`: the mutated network, the final loop index,
and the three printed diagnostics (the failure flag and the two warning
lists; a warning is printed exactly when its list is nonempty). -/
structure ComputeResult where
  nw : Network
  finalI : Int
  failedStructure : Bool
  orphanedSites : List String
  unreachableChannels : List String
deriving DecidableEq

/-- `Network.compute_order()`: reset, seed, bounded relaxation, sorting,
diagnostics. -/
def computeOrder (nw : Network) : ComputeResult :=
  let nw₁ := resetLevels nw
  let nw₂ := seedPhase nw₁
  let (nw₃, i) := relaxLoop (nw₂.channels.length + 10) 0 nw₂
  let nw₄ := { nw₃ with channels := sortChansByLevel nw₃.channels }
  let nw₅ := sortAllSources nw₄
  { nw := nw₅
    finalI := i
    failedStructure := decide (i > nw₅.channels.length + 1)
    orphanedSites := (nw₅.sites.filter (fun p => p.2.level = -1)).map Prod.fst
    unreachableChannels := (nw₅.channels.filter (fun p => p.2.level = 1000)).map Prod.fst }

/-- Final level of the site with id `s`, if present. -/
def siteLevelOf (nw : Network) (s : String) : Option Int :=
  (lookupS nw.sites s).map (fun st => st.level)

/-- Final level of the channel with id `c`, if present. -/
def chanLevelOf (nw : Network) (c : String) : Option Int :=
  (lookupC nw.channels c).map (fun cst => cst.level)

/-! ### Canonical (iteration-order-free) description of the leveling loop

The relaxation loop mutates levels in place while iterating over the
channel dict, so a priori its result could depend on dict order.  The
definitions below describe one pass as a set-like step on a resolution map
`ρ : channel id → Option Int` (the step at which a channel resolved), and
the theorems prove that, below the `1000` sentinel, the loop computes
exactly this order-free description. -/

/-- Producer of a site, read through the registry. -/
def prodOf (sites0 : List (String × SiteState)) (s : String) : Option String :=
  match dictFind sites0 s with
  | some st => st.producer
  | none => none

/-- Source list of a channel, read through the registry. -/
def srcsOf (chans0 : List (String × ChannelState)) (c : String) : List String :=
  match dictFind chans0 c with
  | some cst => cst.source
  | none => []

/-- Target list of a channel, read through the registry. -/
def tgtsOf (chans0 : List (String × ChannelState)) (c : String) : List String :=
  match dictFind chans0 c with
  | some cst => cst.target
  | none => []

/-- The keys of the channel dict. -/
def chanKeys (chans0 : List (String × ChannelState)) : List String :=
  chans0.map Prod.fst

/-- The keys of the site dict. -/
def siteKeys (sites0 : List (String × SiteState)) : List String :=
  sites0.map Prod.fst

/-- Does any channel list `s` among its sources?  (Such a root site is
forced to level 0 by the seed phase.) -/
def isSourceAnywhere (chans0 : List (String × ChannelState)) (s : String) : Bool :=
  chans0.any (fun p => s ∈ p.2.source)

/-- The level a site holds once the resolution map is `ρ`: a root site is
`0` if some channel consumes it and `-1` otherwise; a produced site is
promoted to `j + 1` when its producer has resolved at step `j` and the site
is among its targets, and otherwise still holds the pending sentinel. -/
def canonSite (sites0 : List (String × SiteState)) (chans0 : List (String × ChannelState))
    (ρ : String → Option Int) (s : String) : Int :=
  match prodOf sites0 s with
  | none => if isSourceAnywhere chans0 s then 0 else -1
  | some c =>
      match ρ c with
      | some j => if s ∈ tgtsOf chans0 c then j + 1 else 1000
      | none => 1000

/-- The level a channel holds under `ρ`. -/
def canonChan (ρ : String → Option Int) (c : String) : Int :=
  match ρ c with
  | some j => j
  | none => 1000

/-- Does channel `c` resolve during the pass at step `i`, given that the
pass starts from resolution map `ρ`?  (It must be unresolved with every
source already at a level `≤ i`.) -/
def resolvesNow (sites0 : List (String × SiteState)) (chans0 : List (String × ChannelState))
    (ρ : String → Option Int) (i : Int) (c : String) : Bool :=
  (ρ c).isNone && (srcsOf chans0 c).all (fun s => canonSite sites0 chans0 ρ s ≤ i)

/-- Resolution map after the channels listed in `P` have been visited by
the pass at step `i` that started from `ρ`. -/
def stepRes (sites0 : List (String × SiteState)) (chans0 : List (String × ChannelState))
    (ρ : String → Option Int) (i : Int) (P : List String) : String → Option Int :=
  fun c => if c ∈ P ∧ resolvesNow sites0 chans0 ρ i c then some i else ρ c

/-- Resolution map after one complete pass at step `i`. -/
def canonStep (sites0 : List (String × SiteState)) (chans0 : List (String × ChannelState))
    (ρ : String → Option Int) (i : Int) : String → Option Int :=
  stepRes sites0 chans0 ρ i (chanKeys chans0)

/-- Does the pass at step `i` resolve at least one channel? -/
def canonProgress (sites0 : List (String × SiteState)) (chans0 : List (String × ChannelState))
    (ρ : String → Option Int) (i : Int) : Bool :=
  (chanKeys chans0).any (resolvesNow sites0 chans0 ρ i)

/-- Order-free version of the relaxation loop. -/
def canonLoop (sites0 : List (String × SiteState)) (chans0 : List (String × ChannelState)) :
    Nat → Int → (String → Option Int) → (String → Option Int) × Int
  | 0, i, ρ => (ρ, i)
  | fuel + 1, i, ρ =>
      if canonProgress sites0 chans0 ρ i then
        canonLoop sites0 chans0 fuel (i + 1) (canonStep sites0 chans0 ρ i)
      else (ρ, i + 1)

/-- The resolution map and final index `computeOrder` realizes on `nw`. -/
def canonFinal (nw : Network) : (String → Option Int) × Int :=
  canonLoop nw.sites nw.channels (nw.channels.length + 10) 0 (fun _ => none)

/-- Overwrite every site level with a function of the site id, leaving all
other fields (and the dict order) in place.  Every mutation the leveling
pass performs has this shape. -/
def setLevels (sites0 : List (String × SiteState)) (F : String → Int) :
    List (String × SiteState) :=
  sites0.map (fun p => (p.1, { p.2 with level := F p.1 }))

/-- Overwrite every channel level with a function of the channel id. -/
def setChanLevels (chans0 : List (String × ChannelState)) (G : String → Int) :
    List (String × ChannelState) :=
  chans0.map (fun p => (p.1, { p.2 with level := G p.1 }))

/-- The network `nw0` with its site and channel levels overwritten. -/
def withLevels (nw0 : Network) (F G : String → Int) : Network :=
  { nw0 with sites := setLevels nw0.sites F, channels := setChanLevels nw0.channels G }

/-- The network state corresponding to resolution map `ρ`. -/
def applyLevels (nw0 : Network) (ρ : String → Option Int) : Network :=
  withLevels nw0 (canonSite nw0.sites nw0.channels ρ) (canonChan ρ)

/-- Well-formedness of a network as the construction API maintains it: the
two dicts have unique keys, and every target of every channel has that
channel as its producer (`add_output` establishes this, and nothing ever
clears a producer — `discard_output` only thinks it does). -/
structure WFNet (nw : Network) : Prop where
  ndS : (siteKeys nw.sites).Nodup
  ndC : (chanKeys nw.channels).Nodup
  w1 : ∀ p ∈ nw.channels, ∀ s ∈ p.2.target, prodOf nw.sites s = some p.1

/-! ### Association-list dictionary lemmas -/

theorem dictFind_map {β : Type} (m : List (String × β)) (f : String → β → β) (k : String) :
    dictFind (m.map (fun p => (p.1, f p.1 p.2))) k = (dictFind m k).map (f k) := by
  induction m with
  | nil => rfl
  | cons p m ih =>
      by_cases h : p.1 = k
      · subst h
        simp [dictFind]
      · simpa [dictFind, h] using ih

theorem mem_of_dictFind_eq_some {β : Type} {m : List (String × β)} {k : String} {v : β}
    (h : dictFind m k = some v) : (k, v) ∈ m := by
  induction m with
  | nil => simp [dictFind] at h
  | cons p m ih =>
      by_cases hk : p.1 = k
      · subst hk
        simp [dictFind] at h
        subst h
        exact List.mem_cons_self _ _
      · simp only [dictFind, List.find?] at h ih
        rw [show (decide (p.1 = k)) = false by simpa using hk] at h
        exact List.mem_cons_of_mem _ (ih h)

theorem dictFind_eq_some_of_mem {β : Type} {m : List (String × β)} {k : String} {v : β}
    (hmem : (k, v) ∈ m) (hnd : (m.map Prod.fst).Nodup) : dictFind m k = some v := by
  induction m with
  | nil => simp at hmem
  | cons p m ih =>
      simp only [List.map_cons, List.nodup_cons] at hnd
      rcases List.mem_cons.mp hmem with h | h
      · subst h
        simp [dictFind]
      · have hk : p.1 ≠ k := by
          intro he
          exact hnd.1 (he ▸ (List.mem_map.mpr ⟨(k, v), h, rfl⟩))
        simp only [dictFind, List.find?]
        rw [show (decide (p.1 = k)) = false by simpa using hk]
        exact ih h hnd.2

theorem dictFind_eq_none_iff {β : Type} {m : List (String × β)} {k : String} :
    dictFind m k = none ↔ k ∉ m.map Prod.fst := by
  induction m with
  | nil => simp [dictFind]
  | cons p m ih =>
      by_cases hk : p.1 = k
      · subst hk
        simp [dictFind]
      · simp only [dictFind, List.find?] at ih ⊢
        rw [show (decide (p.1 = k)) = false by simpa using hk]
        rw [ih]
        simp only [List.map_cons, List.mem_cons, not_or]
        exact (and_iff_right (fun he : k = p.1 => hk he.symm)).symm

theorem dictFind_isSome_of_mem_keys {β : Type} {m : List (String × β)} {k : String}
    (h : k ∈ m.map Prod.fst) : (dictFind m k).isSome := by
  cases hf : dictFind m k with
  | none => exact absurd (dictFind_eq_none_iff.mp hf) (by simpa using h)
  | some v => rfl

theorem dictFind_perm {β : Type} {m₁ m₂ : List (String × β)} (hp : m₁.Perm m₂)
    (hnd : (m₁.map Prod.fst).Nodup) (k : String) : dictFind m₁ k = dictFind m₂ k := by
  have hnd₂ : (m₂.map Prod.fst).Nodup := (hp.map Prod.fst).nodup_iff.mp hnd
  cases hf : dictFind m₁ k with
  | none =>
      have : k ∉ m₂.map Prod.fst := by
        intro hmem
        exact dictFind_eq_none_iff.mp hf ((hp.map Prod.fst).mem_iff.mpr hmem)
      exact (dictFind_eq_none_iff.mpr this).symm
  | some v =>
      exact (dictFind_eq_some_of_mem (hp.mem_iff.mp (mem_of_dictFind_eq_some hf)) hnd₂).symm

/-! ### Level-overwriting normal form -/

theorem setLevels_ext {m : List (String × SiteState)} {F G : String → Int}
    (h : ∀ k, F k = G k) : setLevels m F = setLevels m G := by
  rw [funext h]

theorem setChanLevels_ext {m : List (String × ChannelState)} {F G : String → Int}
    (h : ∀ k, F k = G k) : setChanLevels m F = setChanLevels m G := by
  rw [funext h]

theorem siteKeys_setLevels (m : List (String × SiteState)) (F : String → Int) :
    siteKeys (setLevels m F) = siteKeys m := by
  simp [siteKeys, setLevels]

theorem chanKeys_setChanLevels (m : List (String × ChannelState)) (F : String → Int) :
    chanKeys (setChanLevels m F) = chanKeys m := by
  simp [chanKeys, setChanLevels]

theorem dictFind_setLevels (m : List (String × SiteState)) (F : String → Int) (k : String) :
    dictFind (setLevels m F) k
      = (dictFind m k).map (fun st => { st with level := F k }) :=
  dictFind_map m (fun x st => { st with level := F x }) k

theorem dictFind_setChanLevels (m : List (String × ChannelState)) (F : String → Int)
    (k : String) :
    dictFind (setChanLevels m F) k
      = (dictFind m k).map (fun cst => { cst with level := F k }) :=
  dictFind_map m (fun x cst => { cst with level := F x }) k

theorem updS_setLevels (m : List (String × SiteState)) (F : String → Int) (k : String)
    (u : SiteState → SiteState) (g : Int → Int)
    (hu : ∀ st, u st = { st with level := g st.level }) :
    updS (setLevels m F) k u = setLevels m (fun x => if x = k then g (F x) else F x) := by
  simp only [updS, dictUpd, setLevels, List.map_map]
  apply List.map_congr_left
  intro p _
  by_cases h : p.1 = k <;> simp [Function.comp, h, hu]

theorem updC_setChanLevels (m : List (String × ChannelState)) (G : String → Int) (k : String)
    (u : ChannelState → ChannelState) (g : Int → Int)
    (hu : ∀ cst, u cst = { cst with level := g cst.level }) :
    updC (setChanLevels m G) k u
      = setChanLevels m (fun x => if x = k then g (G x) else G x) := by
  simp only [updC, dictUpd, setChanLevels, List.map_map]
  apply List.map_congr_left
  intro p _
  by_cases h : p.1 = k <;> simp [Function.comp, h, hu]

theorem promoteTargets_setLevels (i : Int) (m : List (String × SiteState)) (F : String → Int)
    (tgts : List String) :
    promoteTargets i (setLevels m F) tgts
      = setLevels m (fun k => if k ∈ tgts then i + 1 else F k) := by
  induction tgts generalizing F with
  | nil =>
      apply setLevels_ext
      intro k
      simp
  | cons t ts ih =>
      simp only [promoteTargets, List.foldl_cons] at ih ⊢
      rw [updS_setLevels m F t _ (fun _ => i + 1) (fun st => rfl), ih]
      apply setLevels_ext
      intro k
      by_cases h1 : k = t <;> by_cases h2 : k ∈ ts <;>
        simp [h1, h2, List.mem_cons]

theorem seedFold_setLevels (m : List (String × SiteState)) (F : String → Int)
    (src : List String) :
    src.foldl
        (fun acc s => updS acc s
          (fun st => if st.level = -1 then { st with level := 0 } else st))
        (setLevels m F)
      = setLevels m (fun k => if k ∈ src ∧ F k = -1 then 0 else F k) := by
  induction src generalizing F with
  | nil =>
      apply setLevels_ext
      intro k
      simp
  | cons t ts ih =>
      simp only [List.foldl_cons] at ih ⊢
      rw [updS_setLevels m F t _ (fun x => if x = -1 then 0 else x)
        (fun st => by by_cases h : st.level = -1 <;> simp [h]), ih]
      apply setLevels_ext
      intro k
      by_cases h1 : k = t
      · subst h1
        by_cases h2 : F k = -1 <;> by_cases h3 : k ∈ ts <;>
          simp [h2, h3, List.mem_cons]
      · by_cases h2 : k ∈ ts <;> simp [h1, h2, List.mem_cons]

theorem setLevels_congr {m : List (String × SiteState)} {F G : String → Int}
    (h : ∀ p ∈ m, F p.1 = G p.1) : setLevels m F = setLevels m G := by
  apply List.map_congr_left
  intro p hp
  rw [h p hp]

theorem setChanLevels_congr {m : List (String × ChannelState)} {F G : String → Int}
    (h : ∀ p ∈ m, F p.1 = G p.1) : setChanLevels m F = setChanLevels m G := by
  apply List.map_congr_left
  intro p hp
  rw [h p hp]

theorem entry_dictFind {β : Type} {m : List (String × β)} {p : String × β}
    (hnd : (m.map Prod.fst).Nodup) (hp : p ∈ m) : dictFind m p.1 = some p.2 :=
  dictFind_eq_some_of_mem (by simpa using hp) hnd

theorem setChanLevels_self (m : List (String × ChannelState))
    (hnd : (chanKeys m).Nodup) :
    setChanLevels m (fun k => (((dictFind m k).map (fun c => c.level)).getD 0)) = m := by
  have h : ∀ p ∈ m, (p.1, ({ p.2 with level :=
      (((dictFind m p.1).map (fun c => c.level)).getD 0) } : ChannelState)) = p := by
    intro p hp
    rw [entry_dictFind hnd hp]
    rfl
  calc setChanLevels m _ = m.map id := List.map_congr_left (fun p hp => h p hp)
  _ = m := List.map_id m

theorem netParts_congr {nw0 : Network} {s1 s2 : List (String × SiteState)}
    {c1 c2 : List (String × ChannelState)} (hs : s1 = s2) (hc : c1 = c2) :
    ({ nw0 with sites := s1, channels := c1 } : Network)
      = { nw0 with sites := s2, channels := c2 } := by
  rw [hs, hc]

theorem isSourceAnywhere_iff {chans0 : List (String × ChannelState)}
    (hnd : (chanKeys chans0).Nodup) (s : String) :
    isSourceAnywhere chans0 s = true ↔ ∃ c ∈ chanKeys chans0, s ∈ srcsOf chans0 c := by
  constructor
  · intro h
    rcases List.any_eq_true.mp h with ⟨p, hp, hs⟩
    refine ⟨p.1, List.mem_map.mpr ⟨p, hp, rfl⟩, ?_⟩
    rw [srcsOf, entry_dictFind hnd hp]
    simpa using hs
  · rintro ⟨c, hc, hs⟩
    cases hf : dictFind chans0 c with
    | none => rw [srcsOf, hf] at hs; simp at hs
    | some cst =>
        rw [srcsOf, hf] at hs
        exact List.any_eq_true.mpr ⟨(c, cst), mem_of_dictFind_eq_some hf, by simpa using hs⟩

/-! ### Reset and seed phases compute `applyLevels nw (fun _ => none)` -/

theorem resetLevels_eq (nw : Network) (hnd : (siteKeys nw.sites).Nodup) :
    resetLevels nw
      = { nw with
          sites := setLevels nw.sites
            (fun k => if prodOf nw.sites k = none then -1 else 1000) } := by
  simp only [resetLevels, setLevels]
  have h : ∀ p ∈ nw.sites,
      (p.1, ({ p.2 with level := if p.2.producer = none then (-1 : Int) else 1000 } : SiteState))
        = (p.1, { p.2 with level := if prodOf nw.sites p.1 = none then (-1 : Int) else 1000 }) := by
    intro p hp
    rw [prodOf, entry_dictFind hnd hp]
  rw [List.map_congr_left h]

theorem seedChannel_withLevels (nw0 : Network) (F G : String → Int) (cid : String) :
    seedChannel (withLevels nw0 F G) cid =
      withLevels nw0
        (fun k => if k ∈ srcsOf nw0.channels cid ∧ F k = -1 then 0 else F k)
        (fun k => if k = cid then 1000 else G k) := by
  have hupd : updC (setChanLevels nw0.channels G) cid (fun c => { c with level := 1000 })
      = setChanLevels nw0.channels (fun x => if x = cid then (1000 : Int) else G x) :=
    updC_setChanLevels nw0.channels G cid _ (fun _ => 1000) (fun cst => rfl)
  have hfind := dictFind_setChanLevels nw0.channels
    (fun x => if x = cid then (1000 : Int) else G x) cid
  cases hf : dictFind nw0.channels cid with
  | none =>
      rw [hf] at hfind
      simp only [seedChannel, withLevels, hupd, lookupC, hfind, Option.map_none']
      apply netParts_congr ?_ rfl
      apply setLevels_ext
      intro k
      simp [srcsOf, hf]
  | some cst =>
      rw [hf] at hfind
      simp only [seedChannel, withLevels, hupd, lookupC, hfind, Option.map_some']
      rw [seedFold_setLevels]
      apply netParts_congr ?_ rfl
      apply setLevels_ext
      intro k
      simp [srcsOf, hf]

theorem seedFoldChannels (nw0 : Network) (F G : String → Int) (L : List String) :
    L.foldl seedChannel (withLevels nw0 F G) =
      withLevels nw0
        (fun k => if (∃ c ∈ L, k ∈ srcsOf nw0.channels c) ∧ F k = -1 then 0 else F k)
        (fun k => if k ∈ L then 1000 else G k) := by
  induction L generalizing F G with
  | nil =>
      simp only [List.foldl_nil, withLevels]
      apply netParts_congr
      · exact setLevels_ext (fun k => by simp)
      · exact setChanLevels_ext (fun k => by simp)
  | cons t ts ih =>
      simp only [List.foldl_cons]
      rw [seedChannel_withLevels, ih]
      simp only [withLevels]
      apply netParts_congr
      · apply setLevels_ext
        intro k
        by_cases h1 : k ∈ srcsOf nw0.channels t ∧ F k = -1
        · have hex : ∃ c ∈ t :: ts, k ∈ srcsOf nw0.channels c :=
            ⟨t, List.mem_cons_self t ts, h1.1⟩
          simp [h1.1, h1.2, hex]
        · have hFk : (if k ∈ srcsOf nw0.channels t ∧ F k = -1 then (0 : Int) else F k) = F k :=
            if_neg h1
          rw [hFk]
          by_cases h2 : F k = -1
          · have hkt : k ∉ srcsOf nw0.channels t := fun hk => h1 ⟨hk, h2⟩
            by_cases h3 : ∃ c ∈ ts, k ∈ srcsOf nw0.channels c
            · have hex : ∃ c ∈ t :: ts, k ∈ srcsOf nw0.channels c := by
                rcases h3 with ⟨c, hc, hs⟩
                exact ⟨c, List.mem_cons_of_mem _ hc, hs⟩
              simp [h2, h3, hex]
            · have hnex : ¬∃ c ∈ t :: ts, k ∈ srcsOf nw0.channels c := by
                rintro ⟨c, hc, hs⟩
                rcases List.mem_cons.mp hc with rfl | hc'
                · exact hkt hs
                · exact h3 ⟨c, hc', hs⟩
              simp [h2, h3, hkt, hnex]
          · simp [h2]
      · apply setChanLevels_ext
        intro k
        by_cases h1 : k = t <;> by_cases h2 : k ∈ ts <;> simp [h1, h2, List.mem_cons]

theorem seedPhase_reset (nw : Network) (hndS : (siteKeys nw.sites).Nodup)
    (hndC : (chanKeys nw.channels).Nodup) :
    seedPhase (resetLevels nw) = applyLevels nw (fun _ => none) := by
  have hreset : resetLevels nw = withLevels nw
      (fun k => if prodOf nw.sites k = none then -1 else 1000)
      (fun k => (((dictFind nw.channels k).map (fun c => c.level)).getD 0)) := by
    rw [resetLevels_eq nw hndS]
    simp only [withLevels]
    rw [setChanLevels_self nw.channels hndC]
  rw [seedPhase, hreset]
  have hkeys : (withLevels nw
      (fun k => if prodOf nw.sites k = none then -1 else 1000)
      (fun k => (((dictFind nw.channels k).map (fun c => c.level)).getD 0))).channels.map Prod.fst
      = chanKeys nw.channels := by
    simp [withLevels, setChanLevels, chanKeys]
  rw [hkeys, seedFoldChannels]
  simp only [applyLevels, withLevels]
  apply netParts_congr
  · apply setLevels_ext
    intro k
    rw [canonSite]
    cases hp : prodOf nw.sites k with
    | none =>
        simp only [hp, if_pos rfl]
        by_cases hs : isSourceAnywhere nw.channels k = true
        · have hex := (isSourceAnywhere_iff hndC k).mp hs
          simp [hs, hex]
        · have hnex : ¬∃ c ∈ chanKeys nw.channels, k ∈ srcsOf nw.channels c :=
            fun h => hs ((isSourceAnywhere_iff hndC k).mpr h)
          simp [hnex, Bool.eq_false_iff.mpr hs]
    | some c =>
        simp [hp, canonChan]
  · apply setChanLevels_congr
    intro p hp
    simp [canonChan, chanKeys, List.mem_map.mpr ⟨p, hp, rfl⟩]

/-! ### One relaxation pass computes `canonStep` -/

theorem stepRes_nil (s0 : List (String × SiteState)) (c0 : List (String × ChannelState))
    (ρ : String → Option Int) (i : Int) : stepRes s0 c0 ρ i [] = ρ := by
  funext c
  simp [stepRes]

theorem stepRes_of_some {s0 c0 ρ i} {c : String} {j : Int} (P : List String)
    (hc : ρ c = some j) : stepRes s0 c0 ρ i P c = some j := by
  have : resolvesNow s0 c0 ρ i c = false := by
    simp [resolvesNow, hc]
  simp [stepRes, this, hc]

theorem stepRes_snoc_of_not {s0 c0 ρ i} {c : String} (P : List String)
    (h : resolvesNow s0 c0 ρ i c = false) :
    stepRes s0 c0 ρ i (P ++ [c]) = stepRes s0 c0 ρ i P := by
  funext x
  by_cases hx : x = c
  · subst hx
    simp [stepRes, h]
  · simp [stepRes, List.mem_append, hx]

theorem stepRes_snoc_self {s0 c0 ρ i} {c : String}
    (h : resolvesNow s0 c0 ρ i c = true) (P : List String) :
    stepRes s0 c0 ρ i (P ++ [c]) c = some i := by
  simp [stepRes, h, List.mem_append]

theorem stepRes_snoc_other {s0 c0 ρ i} {c x : String} (P : List String) (hx : x ≠ c) :
    stepRes s0 c0 ρ i (P ++ [c]) x = stepRes s0 c0 ρ i P x := by
  simp [stepRes, List.mem_append, hx]

theorem canonSite_prod_none {s0 : List (String × SiteState)}
    {c0 : List (String × ChannelState)} {ρ : String → Option Int} {s : String}
    (hp : prodOf s0 s = none) :
    canonSite s0 c0 ρ s = if isSourceAnywhere c0 s then 0 else -1 := by
  simp [canonSite, hp]

theorem canonSite_prod_resolved {s0 : List (String × SiteState)}
    {c0 : List (String × ChannelState)} {ρ : String → Option Int} {s c : String} {j : Int}
    (hp : prodOf s0 s = some c) (hc : ρ c = some j) :
    canonSite s0 c0 ρ s = if s ∈ tgtsOf c0 c then j + 1 else 1000 := by
  simp [canonSite, hp, hc]

theorem canonSite_prod_unresolved {s0 : List (String × SiteState)}
    {c0 : List (String × ChannelState)} {ρ : String → Option Int} {s c : String}
    (hp : prodOf s0 s = some c) (hc : ρ c = none) :
    canonSite s0 c0 ρ s = 1000 := by
  simp [canonSite, hp, hc]

/-- During a pass at step `i`, the promotions already performed (recorded in
the visited prefix `P`) never change whether a site level is `≤ i`:
promotions set levels to `i + 1`, from `1000`, and both exceed `i`. -/
theorem canonSite_stepRes_le_iff (s0 : List (String × SiteState))
    (c0 : List (String × ChannelState)) (ρ : String → Option Int) (i : Int)
    (P : List String) (hi : i < 1000) (s : String) :
    (canonSite s0 c0 (stepRes s0 c0 ρ i P) s ≤ i ↔ canonSite s0 c0 ρ s ≤ i) := by
  cases hp : prodOf s0 s with
  | none => rw [canonSite_prod_none hp, canonSite_prod_none hp]
  | some c =>
      cases hc : ρ c with
      | some j =>
          rw [canonSite_prod_resolved hp (stepRes_of_some P hc),
            canonSite_prod_resolved hp hc]
      | none =>
          rw [canonSite_prod_unresolved hp hc]
          by_cases hres : stepRes s0 c0 ρ i P c = some i
          · rw [canonSite_prod_resolved hp hres]
            by_cases ht : s ∈ tgtsOf c0 c <;> simp [ht] <;> omega
          · have hnone : stepRes s0 c0 ρ i P c = none := by
              rw [stepRes]
              by_cases hcond : c ∈ P ∧ resolvesNow s0 c0 ρ i c = true
              · exact absurd (if_pos hcond) hres
              · rw [if_neg hcond]
                exact hc
            rw [canonSite_prod_unresolved hp hnone]

/-- Reading a source-site level through the registry during the pass.  A
source site outside the registry (impossible in Python, where references
are alive) reads as the default `0`, which is also its canonical level. -/
theorem sLevel_setLevels_src (s0 : List (String × SiteState))
    (c0 : List (String × ChannelState)) (ρ : String → Option Int) {c s : String}
    (hs : s ∈ srcsOf c0 c) :
    sLevel (setLevels s0 (canonSite s0 c0 ρ)) s = canonSite s0 c0 ρ s := by
  cases hf : dictFind s0 s with
  | some st =>
      rw [sLevel, lookupS, dictFind_setLevels, hf]
      rfl
  | none =>
      rw [sLevel, lookupS, dictFind_setLevels, hf]
      have hsome : isSourceAnywhere c0 s = true := by
        rw [srcsOf] at hs
        cases hg : dictFind c0 c with
        | none => rw [hg] at hs; simp at hs
        | some cst =>
            rw [hg] at hs
            exact List.any_eq_true.mpr
              ⟨(c, cst), mem_of_dictFind_eq_some hg, by simpa using hs⟩
      rw [canonSite, prodOf, hf]
      simp [hsome]

theorem any_gt_eq_not_all_le (l : List String) (f g : String → Int) (i : Int)
    (hfg : ∀ s ∈ l, (f s > i ↔ g s > i)) :
    (l.any (fun s => f s > i)) = !(l.all (fun s => g s ≤ i)) := by
  induction l with
  | nil => simp
  | cons t ts ih =>
      have ht := hfg t (List.mem_cons_self t ts)
      rw [List.any_cons, List.all_cons,
        ih (fun s hs => hfg s (List.mem_cons_of_mem t hs))]
      by_cases h : g t ≤ i
      · have hft : ¬f t > i := fun hgt => absurd (ht.mp hgt) (not_lt.mpr h)
        simp [h, hft]
      · have hft : f t > i := ht.mpr (lt_of_not_le h)
        simp [h, hft]

theorem stepChannel_skip (i : Int) (nw : Network) (done : Bool) (cid : String)
    {c : ChannelState} (hl : lookupC nw.channels cid = some c) (h : c.level < i) :
    stepChannel i (nw, done) cid = (nw, done) := by
  simp only [stepChannel, hl]
  rw [if_pos h]

theorem stepChannel_notReady (i : Int) (nw : Network) (done : Bool) (cid : String)
    {c : ChannelState} (hl : lookupC nw.channels cid = some c) (h2 : ¬c.level < i)
    (h3 : c.source.any (fun s => sLevel nw.sites s > i) = true) :
    stepChannel i (nw, done) cid = (nw, done) := by
  simp only [stepChannel, hl]
  rw [if_neg h2, h3]
  simp

theorem stepChannel_resolve (i : Int) (nw : Network) (done : Bool) (cid : String)
    {c : ChannelState} (hl : lookupC nw.channels cid = some c) (h2 : ¬c.level < i)
    (h3 : c.source.any (fun s => sLevel nw.sites s > i) = false) :
    stepChannel i (nw, done) cid =
      ({ nw with channels := updC nw.channels cid (fun cc => { cc with level := i }),
                 sites := promoteTargets i nw.sites c.target }, false) := by
  simp only [stepChannel, hl]
  rw [if_neg h2, h3]
  simp

/-- The channel resolved by visiting `c` turns the mid-pass state for the
visited prefix `P` into the one for `P ++ [c]` (sites component). -/
theorem promote_stepRes_snoc (nw0 : Network)
    (hw1 : ∀ c, ∀ s ∈ tgtsOf nw0.channels c, prodOf nw0.sites s = some c)
    (ρ : String → Option Int) (i : Int) (P : List String) {c : String}
    (hcP : c ∉ P) (hres : resolvesNow nw0.sites nw0.channels ρ i c = true) :
    setLevels nw0.sites
        (fun k => if k ∈ tgtsOf nw0.channels c then i + 1
          else canonSite nw0.sites nw0.channels (stepRes nw0.sites nw0.channels ρ i P) k)
      = setLevels nw0.sites
          (canonSite nw0.sites nw0.channels (stepRes nw0.sites nw0.channels ρ i (P ++ [c]))) := by
  apply setLevels_ext
  intro k
  by_cases hk : k ∈ tgtsOf nw0.channels c
  · rw [if_pos hk,
      canonSite_prod_resolved (hw1 c k hk) (stepRes_snoc_self hres P), if_pos hk]
  · rw [if_neg hk]
    cases hp : prodOf nw0.sites k with
    | none => rw [canonSite_prod_none hp, canonSite_prod_none hp]
    | some d =>
        by_cases hdc : d = c
        · subst hdc
          have hnone : stepRes nw0.sites nw0.channels ρ i P d = none := by
            have hres' := hres
            simp only [resolvesNow, Bool.and_eq_true, Option.isNone_iff_eq_none] at hres'
            rw [stepRes, if_neg (fun h => hcP h.1)]
            exact hres'.1
          rw [canonSite_prod_unresolved hp hnone,
            canonSite_prod_resolved hp (stepRes_snoc_self hres P), if_neg hk]
        · have heq := @stepRes_snoc_other nw0.sites nw0.channels ρ i c d P hdc
          cases hd : stepRes nw0.sites nw0.channels ρ i P d with
          | some j =>
              rw [canonSite_prod_resolved hp (heq.trans hd),
                canonSite_prod_resolved hp hd]
          | none =>
              rw [canonSite_prod_unresolved hp (heq.trans hd),
                canonSite_prod_unresolved hp hd]

/-- Channel-level component of the same bookkeeping. -/
theorem chanLevels_stepRes_snoc (nw0 : Network) (ρ : String → Option Int) (i : Int)
    (P : List String) {c : String}
    (hres : resolvesNow nw0.sites nw0.channels ρ i c = true) :
    setChanLevels nw0.channels
        (fun x => if x = c then i
          else canonChan (stepRes nw0.sites nw0.channels ρ i P) x)
      = setChanLevels nw0.channels
          (canonChan (stepRes nw0.sites nw0.channels ρ i (P ++ [c]))) := by
  apply setChanLevels_ext
  intro x
  by_cases hx : x = c
  · subst hx
    rw [if_pos rfl, canonChan, stepRes_snoc_self hres P]
  · rw [if_neg hx, canonChan, canonChan, stepRes_snoc_other P hx]

theorem updC_setChanLevels_const (m : List (String × ChannelState)) (G : String → Int)
    (k : String) (v : Int) :
    updC (setChanLevels m G) k (fun cc => { cc with level := v })
      = setChanLevels m (fun x => if x = k then v else G x) := by
  simp only [updC, dictUpd, setChanLevels, List.map_map]
  apply List.map_congr_left
  intro p _
  by_cases h : p.1 = k <;> simp [Function.comp, h]

/-- One visit of the relaxation pass fold, carried over the remaining
channel list: the state stays in `applyLevels` form, tracked by the
visited-prefix resolution map. -/
theorem relaxFold (nw0 : Network) (hndC : (chanKeys nw0.channels).Nodup)
    (hw1 : ∀ c, ∀ s ∈ tgtsOf nw0.channels c, prodOf nw0.sites s = some c)
    (ρ : String → Option Int) (i : Int) (hi : i < 1000)
    (hρ : ∀ c j, ρ c = some j → j < i) :
    ∀ (L P : List String), chanKeys nw0.channels = P ++ L →
      L.foldl (stepChannel i)
        (applyLevels nw0 (stepRes nw0.sites nw0.channels ρ i P),
          !(P.any (resolvesNow nw0.sites nw0.channels ρ i))) =
      (applyLevels nw0 (stepRes nw0.sites nw0.channels ρ i (P ++ L)),
        !((P ++ L).any (resolvesNow nw0.sites nw0.channels ρ i))) := by
  intro L
  induction L with
  | nil =>
      intro P hPL
      simp
  | cons c L' ih =>
    intro P hPL
    have hcK : c ∈ chanKeys nw0.channels := by rw [hPL]; simp
    have hnd' : (P ++ c :: L').Nodup := hPL ▸ hndC
    have hcP : c ∉ P := by
      intro hmem
      exact (List.nodup_append.mp hnd').2.2 hmem (List.mem_cons_self c L')
    obtain ⟨cst, hcst⟩ : ∃ cst, dictFind nw0.channels c = some cst := by
      cases hf : dictFind nw0.channels c with
      | none => exact absurd hcK (dictFind_eq_none_iff.mp hf)
      | some cst => exact ⟨cst, rfl⟩
    have hPL' : chanKeys nw0.channels = (P ++ [c]) ++ L' := by
      rw [hPL, List.append_assoc]
      rfl
    have happ : P ++ c :: L' = (P ++ [c]) ++ L' := by
      rw [List.append_assoc]
      rfl
    have hsrcs : srcsOf nw0.channels c = cst.source := by rw [srcsOf, hcst]
    have htgts : tgtsOf nw0.channels c = cst.target := by rw [tgtsOf, hcst]
    have hlook : lookupC (applyLevels nw0 (stepRes nw0.sites nw0.channels ρ i P)).channels c
        = some { cst with level := canonChan (stepRes nw0.sites nw0.channels ρ i P) c } := by
      show dictFind (setChanLevels nw0.channels
        (canonChan (stepRes nw0.sites nw0.channels ρ i P))) c = _
      rw [dictFind_setChanLevels, hcst]
      rfl
    rw [List.foldl_cons]
    cases hc : ρ c with
    | some j =>
        have hj := hρ c j hc
        have hres : resolvesNow nw0.sites nw0.channels ρ i c = false := by
          simp [resolvesNow, hc]
        have hskip : ({ cst with
            level := canonChan (stepRes nw0.sites nw0.channels ρ i P) c } : ChannelState).level
            < i := by
          show canonChan (stepRes nw0.sites nw0.channels ρ i P) c < i
          rw [canonChan, stepRes_of_some P hc]
          exact hj
        rw [stepChannel_skip i _ _ c hlook hskip]
        have h1 : stepRes nw0.sites nw0.channels ρ i (P ++ [c])
            = stepRes nw0.sites nw0.channels ρ i P := stepRes_snoc_of_not P hres
        have h2 : ((P ++ [c]).any (resolvesNow nw0.sites nw0.channels ρ i))
            = (P.any (resolvesNow nw0.sites nw0.channels ρ i)) := by
          rw [List.any_append]
          simp [hres]
        rw [← h1, ← h2, happ]
        exact ih (P ++ [c]) hPL'
    | none =>
        have hn : stepRes nw0.sites nw0.channels ρ i P c = none := by
          rw [stepRes, if_neg (fun h => hcP h.1)]
          exact hc
        have hnoskip : ¬({ cst with
            level := canonChan (stepRes nw0.sites nw0.channels ρ i P) c } : ChannelState).level
            < i := by
          show ¬canonChan (stepRes nw0.sites nw0.channels ρ i P) c < i
          rw [canonChan, hn]
          show ¬(1000 : Int) < i
          omega
        have hanyeq : (({ cst with
              level := canonChan (stepRes nw0.sites nw0.channels ρ i P) c } : ChannelState).source.any
              (fun s => sLevel (applyLevels nw0 (stepRes nw0.sites nw0.channels ρ i P)).sites s > i))
            = !(cst.source.all
                (fun s => canonSite nw0.sites nw0.channels ρ s ≤ i)) := by
          show (cst.source.any (fun s => sLevel
            (setLevels nw0.sites (canonSite nw0.sites nw0.channels
              (stepRes nw0.sites nw0.channels ρ i P))) s > i)) = _
          apply any_gt_eq_not_all_le
          intro s hs
          rw [sLevel_setLevels_src nw0.sites nw0.channels _ (hsrcs ▸ hs)]
          have hiff := canonSite_stepRes_le_iff nw0.sites nw0.channels ρ i P hi s
          have hnot := not_congr hiff
          rw [not_le, not_le] at hnot
          exact hnot
        by_cases hall : cst.source.all
            (fun s => canonSite nw0.sites nw0.channels ρ s ≤ i) = true
        · have hres : resolvesNow nw0.sites nw0.channels ρ i c = true := by
            simp [resolvesNow, hc, hsrcs, hall]
          have hany : (({ cst with
                level := canonChan (stepRes nw0.sites nw0.channels ρ i P) c } : ChannelState).source.any
                (fun s => sLevel (applyLevels nw0 (stepRes nw0.sites nw0.channels ρ i P)).sites s > i))
              = false := by
            rw [hanyeq, hall]
            rfl
          rw [stepChannel_resolve i _ _ c hlook hnoskip hany]
          have hstate :
              ({ applyLevels nw0 (stepRes nw0.sites nw0.channels ρ i P) with
                  channels := updC (applyLevels nw0 (stepRes nw0.sites nw0.channels ρ i P)).channels c
                    (fun cc => { cc with level := i }),
                  sites := promoteTargets i
                    (applyLevels nw0 (stepRes nw0.sites nw0.channels ρ i P)).sites
                    ({ cst with
                      level := canonChan (stepRes nw0.sites nw0.channels ρ i P) c } : ChannelState).target } : Network)
              = applyLevels nw0 (stepRes nw0.sites nw0.channels ρ i (P ++ [c])) := by
            show ({ nw0 with
                sites := promoteTargets i
                  (setLevels nw0.sites (canonSite nw0.sites nw0.channels
                    (stepRes nw0.sites nw0.channels ρ i P))) cst.target,
                channels := updC (setChanLevels nw0.channels
                    (canonChan (stepRes nw0.sites nw0.channels ρ i P))) c
                  (fun cc => { cc with level := i }) } : Network) = _
            rw [promoteTargets_setLevels, updC_setChanLevels_const,
              ← htgts, promote_stepRes_snoc nw0 hw1 ρ i P hcP hres,
              chanLevels_stepRes_snoc nw0 ρ i P hres]
            rfl
          rw [hstate]
          have hflag : (false : Bool)
              = !((P ++ [c]).any (resolvesNow nw0.sites nw0.channels ρ i)) := by
            rw [List.any_append]
            simp [hres]
          rw [hflag, happ]
          exact ih (P ++ [c]) hPL'
        · have hallf : cst.source.all
              (fun s => canonSite nw0.sites nw0.channels ρ s ≤ i) = false := by
            revert hall
            cases cst.source.all (fun s => canonSite nw0.sites nw0.channels ρ s ≤ i) <;> simp
          have hres : resolvesNow nw0.sites nw0.channels ρ i c = false := by
            simp [resolvesNow, hc, hsrcs, hallf]
          have hany : (({ cst with
                level := canonChan (stepRes nw0.sites nw0.channels ρ i P) c } : ChannelState).source.any
                (fun s => sLevel (applyLevels nw0 (stepRes nw0.sites nw0.channels ρ i P)).sites s > i))
              = true := by
            rw [hanyeq, hallf]
            rfl
          rw [stepChannel_notReady i _ _ c hlook hnoskip hany]
          have h1 : stepRes nw0.sites nw0.channels ρ i (P ++ [c])
              = stepRes nw0.sites nw0.channels ρ i P := stepRes_snoc_of_not P hres
          have h2 : ((P ++ [c]).any (resolvesNow nw0.sites nw0.channels ρ i))
              = (P.any (resolvesNow nw0.sites nw0.channels ρ i)) := by
            rw [List.any_append]
            simp [hres]
          rw [← h1, ← h2, happ]
          exact ih (P ++ [c]) hPL'

theorem applyLevels_channels_length (nw0 : Network) (ρ : String → Option Int) :
    (applyLevels nw0 ρ).channels.length = nw0.channels.length := by
  simp [applyLevels, withLevels, setChanLevels]

theorem relaxPass_applyLevels (nw0 : Network) (hndC : (chanKeys nw0.channels).Nodup)
    (hw1 : ∀ c, ∀ s ∈ tgtsOf nw0.channels c, prodOf nw0.sites s = some c)
    (ρ : String → Option Int) (i : Int) (hi : i < 1000)
    (hρ : ∀ c j, ρ c = some j → j < i) :
    relaxPass i (applyLevels nw0 ρ)
      = (applyLevels nw0 (canonStep nw0.sites nw0.channels ρ i),
          !(canonProgress nw0.sites nw0.channels ρ i)) := by
  have hkeys : (applyLevels nw0 ρ).channels.map Prod.fst = chanKeys nw0.channels := by
    simp [applyLevels, withLevels, setChanLevels, chanKeys]
  rw [relaxPass, hkeys]
  have h0 := relaxFold nw0 hndC hw1 ρ i hi hρ (chanKeys nw0.channels) [] rfl
  rw [stepRes_nil] at h0
  simpa [canonStep, canonProgress] using h0

theorem canonStep_of_no_progress {s0 : List (String × SiteState)}
    {c0 : List (String × ChannelState)} {ρ : String → Option Int} {i : Int}
    (h : canonProgress s0 c0 ρ i = false) : canonStep s0 c0 ρ i = ρ := by
  funext c
  rw [canonStep, stepRes]
  by_cases hcond : c ∈ chanKeys c0 ∧ resolvesNow s0 c0 ρ i c = true
  · exact absurd (List.any_eq_true.mpr ⟨c, hcond.1, hcond.2⟩)
      (by rw [canonProgress] at h; simp [h])
  · rw [if_neg hcond]

theorem relaxLoop_applyLevels (nw0 : Network) (hndC : (chanKeys nw0.channels).Nodup)
    (hw1 : ∀ c, ∀ s ∈ tgtsOf nw0.channels c, prodOf nw0.sites s = some c) :
    ∀ (fuel : Nat) (i : Int) (ρ : String → Option Int),
      i + fuel ≤ 1000 → (∀ c j, ρ c = some j → j < i) →
      relaxLoop fuel i (applyLevels nw0 ρ)
        = (applyLevels nw0 (canonLoop nw0.sites nw0.channels fuel i ρ).1,
            (canonLoop nw0.sites nw0.channels fuel i ρ).2) := by
  intro fuel
  induction fuel with
  | zero =>
      intro i ρ hcap hρ
      rfl
  | succ fuel ih =>
      intro i ρ hcap hρ
      have hi : i < 1000 := by
        have : (0 : Int) ≤ (fuel : Int) := Int.natCast_nonneg fuel
        push_cast at hcap
        omega
      rw [show relaxLoop (fuel + 1) i (applyLevels nw0 ρ)
          = (let r := relaxPass i (applyLevels nw0 ρ)
             if r.2 then (r.1, i + 1) else relaxLoop fuel (i + 1) r.1) from rfl]
      rw [relaxPass_applyLevels nw0 hndC hw1 ρ i hi hρ]
      cases hprog : canonProgress nw0.sites nw0.channels ρ i with
      | false =>
          rw [canonStep_of_no_progress hprog]
          rw [show canonLoop nw0.sites nw0.channels (fuel + 1) i ρ
              = (if canonProgress nw0.sites nw0.channels ρ i then
                   canonLoop nw0.sites nw0.channels fuel (i + 1)
                     (canonStep nw0.sites nw0.channels ρ i)
                 else (ρ, i + 1)) from rfl, hprog]
          simp
      | true =>
          have hρ' : ∀ c j, canonStep nw0.sites nw0.channels ρ i c = some j → j < i + 1 := by
            intro c j hcj
            rw [canonStep, stepRes] at hcj
            by_cases hcond : c ∈ chanKeys nw0.channels
                ∧ resolvesNow nw0.sites nw0.channels ρ i c = true
            · rw [if_pos hcond] at hcj
              cases hcj
              omega
            · rw [if_neg hcond] at hcj
              have := hρ c j hcj
              omega
          have hcap' : (i + 1) + (fuel : Int) ≤ 1000 := by push_cast at hcap ⊢; omega
          rw [show canonLoop nw0.sites nw0.channels (fuel + 1) i ρ
              = (if canonProgress nw0.sites nw0.channels ρ i then
                   canonLoop nw0.sites nw0.channels fuel (i + 1)
                     (canonStep nw0.sites nw0.channels ρ i)
                 else (ρ, i + 1)) from rfl, hprog]
          simp only [if_true]
          rw [← ih (i + 1) (canonStep nw0.sites nw0.channels ρ i) hcap' hρ']
          simp

/-! ### The sorting phases permute without touching levels -/

theorem insertChanByLevel_perm (x : String × ChannelState)
    (l : List (String × ChannelState)) : (insertChanByLevel x l).Perm (x :: l) := by
  induction l with
  | nil => exact List.Perm.refl _
  | cons y ys ih =>
      rw [insertChanByLevel]
      by_cases h : y.2.level < x.2.level
      · rw [if_pos h]
        exact (ih.cons y).trans (List.Perm.swap x y ys)
      · rw [if_neg h]

theorem sortChansByLevel_perm (l : List (String × ChannelState)) :
    (sortChansByLevel l).Perm l := by
  induction l with
  | nil => exact List.Perm.refl _
  | cons x xs ih =>
      exact (insertChanByLevel_perm x (sortChansByLevel xs)).trans (ih.cons x)

theorem insertSrcByLevel_perm (sites : List (String × SiteState)) (x : String)
    (l : List String) : (insertSrcByLevel sites x l).Perm (x :: l) := by
  induction l with
  | nil => exact List.Perm.refl _
  | cons y ys ih =>
      rw [insertSrcByLevel]
      by_cases h : -(sLevel sites y) < -(sLevel sites x)
      · rw [if_pos h]
        exact (ih.cons y).trans (List.Perm.swap x y ys)
      · rw [if_neg h]

theorem sortSrcByLevel_perm (sites : List (String × SiteState)) (l : List String) :
    (sortSrcByLevel sites l).Perm l := by
  induction l with
  | nil => exact List.Perm.refl _
  | cons x xs ih =>
      exact (insertSrcByLevel_perm sites x (sortSrcByLevel sites xs)).trans (ih.cons x)

/-! ### Full characterization of `computeOrder` below the sentinel -/

theorem WFNet.w1Fun {nw : Network} (h : WFNet nw) :
    ∀ c, ∀ s ∈ tgtsOf nw.channels c, prodOf nw.sites s = some c := by
  intro c s hs
  rw [tgtsOf] at hs
  cases hf : dictFind nw.channels c with
  | none => rw [hf] at hs; simp at hs
  | some cst =>
      rw [hf] at hs
      exact h.w1 (c, cst) (mem_of_dictFind_eq_some hf) s hs

/-- The site dict as `computeOrder` leaves it (canonical levels). -/
def finalSitesOf (nw : Network) : List (String × SiteState) :=
  setLevels nw.sites (canonSite nw.sites nw.channels (canonFinal nw).1)

/-- The channel dict as `computeOrder` leaves it: canonical levels, sorted
ascending by level, each source list sorted descending by site level. -/
def finalChansOf (nw : Network) : List (String × ChannelState) :=
  (sortChansByLevel (setChanLevels nw.channels (canonChan (canonFinal nw).1))).map
    (fun p => (p.1, { p.2 with source := sortSrcByLevel (finalSitesOf nw) p.2.source }))

/-- What `computeOrder` computes, for a well-formed network whose channel
count keeps the iteration index strictly below the `1000` sentinel: the
canonical resolution map determines every level, the channel dict is
sorted (a permutation), and the source lists are sorted (permutations). -/
theorem computeOrder_eq (nw : Network) (hWF : WFNet nw)
    (hlen : nw.channels.length ≤ 990) :
    computeOrder nw =
      { nw := { nw with sites := finalSitesOf nw, channels := finalChansOf nw },
        finalI := (canonFinal nw).2,
        failedStructure := decide ((canonFinal nw).2 > (finalChansOf nw).length + 1),
        orphanedSites := ((finalSitesOf nw).filter (fun p => p.2.level = -1)).map Prod.fst,
        unreachableChannels :=
          ((finalChansOf nw).filter (fun p => p.2.level = 1000)).map Prod.fst } := by
  have hseed := seedPhase_reset nw hWF.ndS hWF.ndC
  have hρ0 : ∀ (c : String) (j : Int), (fun _ => (none : Option Int)) c = some j → j < 0 := by
    intro c j h
    exact absurd h (by simp)
  have hcap : (0 : Int) + ((nw.channels.length + 10 : Nat) : Int) ≤ 1000 := by
    push_cast
    omega
  have hloop := relaxLoop_applyLevels nw hWF.ndC hWF.w1Fun
    (nw.channels.length + 10) 0 (fun _ => none) hcap hρ0
  simp only [computeOrder]
  rw [hseed, applyLevels_channels_length, hloop]
  simp only [sortAllSources, applyLevels, withLevels, canonFinal, finalSitesOf, finalChansOf]

theorem dictFind_finalChans (nw : Network) (hndC : (chanKeys nw.channels).Nodup)
    (c : String) :
    dictFind (finalChansOf nw) c
      = (dictFind nw.channels c).map
          (fun cst => { cst with
            source := sortSrcByLevel (finalSitesOf nw) cst.source,
            level := canonChan (canonFinal nw).1 c }) := by
  have hY : dictFind (setChanLevels nw.channels (canonChan (canonFinal nw).1)) c
      = (dictFind nw.channels c).map
          (fun cst => { cst with level := canonChan (canonFinal nw).1 c }) :=
    dictFind_setChanLevels nw.channels _ c
  have hperm := sortChansByLevel_perm (setChanLevels nw.channels (canonChan (canonFinal nw).1))
  have hndY : ((setChanLevels nw.channels (canonChan (canonFinal nw).1)).map Prod.fst).Nodup := by
    have := chanKeys_setChanLevels nw.channels (canonChan (canonFinal nw).1)
    rw [chanKeys] at this
    rw [this]
    exact hndC
  have hndsorted : ((sortChansByLevel (setChanLevels nw.channels
      (canonChan (canonFinal nw).1))).map Prod.fst).Nodup :=
    ((hperm.map Prod.fst).nodup_iff).mpr hndY
  rw [finalChansOf,
    dictFind_map (sortChansByLevel (setChanLevels nw.channels (canonChan (canonFinal nw).1)))
      (fun _ cst => { cst with source := sortSrcByLevel (finalSitesOf nw) cst.source }) c,
    dictFind_perm hperm hndsorted c, hY, Option.map_map]
  cases dictFind nw.channels c <;> rfl

theorem computeOrder_siteLevelOf (nw : Network) (hWF : WFNet nw)
    (hlen : nw.channels.length ≤ 990) (s : String) :
    siteLevelOf (computeOrder nw).nw s
      = (dictFind nw.sites s).map
          (fun _ => canonSite nw.sites nw.channels (canonFinal nw).1 s) := by
  rw [computeOrder_eq nw hWF hlen]
  show (dictFind (finalSitesOf nw) s).map (fun st => st.level) = _
  rw [finalSitesOf, dictFind_setLevels]
  cases dictFind nw.sites s <;> rfl

theorem computeOrder_chanLevelOf (nw : Network) (hWF : WFNet nw)
    (hlen : nw.channels.length ≤ 990) (c : String) :
    chanLevelOf (computeOrder nw).nw c
      = (dictFind nw.channels c).map (fun _ => canonChan (canonFinal nw).1 c) := by
  rw [computeOrder_eq nw hWF hlen]
  show (dictFind (finalChansOf nw) c).map (fun cst => cst.level) = _
  rw [dictFind_finalChans nw hWF.ndC c]
  cases dictFind nw.channels c <;> rfl

/-! ### The canonical loop only depends on the graph structure -/

theorem bool_eq_of_true_iff {a b : Bool} (h : a = true ↔ b = true) : a = b := by
  cases a <;> cases b <;> simp_all

theorem all_congr_mem {l₁ l₂ : List String} (h : ∀ x, x ∈ l₁ ↔ x ∈ l₂)
    (p : String → Bool) : l₁.all p = l₂.all p := by
  apply bool_eq_of_true_iff
  rw [List.all_eq_true, List.all_eq_true]
  exact ⟨fun ha x hx => ha x ((h x).mpr hx), fun ha x hx => ha x ((h x).mp hx)⟩

theorem any_congr_mem {l₁ l₂ : List String} (h : ∀ x, x ∈ l₁ ↔ x ∈ l₂)
    (p : String → Bool) : l₁.any p = l₂.any p := by
  apply bool_eq_of_true_iff
  rw [List.any_eq_true, List.any_eq_true]
  exact ⟨fun ⟨x, hx, hp⟩ => ⟨x, (h x).mp hx, hp⟩, fun ⟨x, hx, hp⟩ => ⟨x, (h x).mpr hx, hp⟩⟩

theorem canonSite_ext {s0 s0' : List (String × SiteState)}
    {c0 c0' : List (String × ChannelState)}
    (hprod : ∀ s, prodOf s0' s = prodOf s0 s)
    (htgt : ∀ c, tgtsOf c0' c = tgtsOf c0 c)
    (hsrcany : ∀ s, isSourceAnywhere c0' s = isSourceAnywhere c0 s)
    (ρ : String → Option Int) (s : String) :
    canonSite s0' c0' ρ s = canonSite s0 c0 ρ s := by
  cases hp : prodOf s0 s with
  | none =>
      rw [canonSite_prod_none ((hprod s).trans hp), canonSite_prod_none hp, hsrcany]
  | some c =>
      cases hc : ρ c with
      | some j =>
          rw [canonSite_prod_resolved ((hprod s).trans hp) hc,
            canonSite_prod_resolved hp hc, htgt]
      | none =>
          rw [canonSite_prod_unresolved ((hprod s).trans hp) hc,
            canonSite_prod_unresolved hp hc]

theorem resolvesNow_ext {s0 s0' : List (String × SiteState)}
    {c0 c0' : List (String × ChannelState)}
    (hprod : ∀ s, prodOf s0' s = prodOf s0 s)
    (htgt : ∀ c, tgtsOf c0' c = tgtsOf c0 c)
    (hsrcany : ∀ s, isSourceAnywhere c0' s = isSourceAnywhere c0 s)
    (hsrc : ∀ c x, x ∈ srcsOf c0' c ↔ x ∈ srcsOf c0 c)
    (ρ : String → Option Int) (i : Int) (c : String) :
    resolvesNow s0' c0' ρ i c = resolvesNow s0 c0 ρ i c := by
  have hfun : (fun s => decide (canonSite s0' c0' ρ s ≤ i))
      = (fun s => decide (canonSite s0 c0 ρ s ≤ i)) :=
    funext (fun s => by rw [canonSite_ext hprod htgt hsrcany ρ s])
  rw [resolvesNow, resolvesNow, hfun, all_congr_mem (hsrc c)]

theorem canonStep_ext {s0 s0' : List (String × SiteState)}
    {c0 c0' : List (String × ChannelState)}
    (hprod : ∀ s, prodOf s0' s = prodOf s0 s)
    (htgt : ∀ c, tgtsOf c0' c = tgtsOf c0 c)
    (hsrcany : ∀ s, isSourceAnywhere c0' s = isSourceAnywhere c0 s)
    (hsrc : ∀ c x, x ∈ srcsOf c0' c ↔ x ∈ srcsOf c0 c)
    (hids : ∀ x, x ∈ chanKeys c0' ↔ x ∈ chanKeys c0)
    (ρ : String → Option Int) (i : Int) :
    canonStep s0' c0' ρ i = canonStep s0 c0 ρ i := by
  funext c
  rw [canonStep, canonStep, stepRes, stepRes]
  by_cases h : c ∈ chanKeys c0 ∧ resolvesNow s0 c0 ρ i c = true
  · rw [if_pos h, if_pos ⟨(hids c).mpr h.1, by
      rw [resolvesNow_ext hprod htgt hsrcany hsrc]
      exact h.2⟩]
  · rw [if_neg h, if_neg (fun h' => h ⟨(hids c).mp h'.1, by
      rw [← resolvesNow_ext hprod htgt hsrcany hsrc]
      exact h'.2⟩)]

theorem canonProgress_ext {s0 s0' : List (String × SiteState)}
    {c0 c0' : List (String × ChannelState)}
    (hprod : ∀ s, prodOf s0' s = prodOf s0 s)
    (htgt : ∀ c, tgtsOf c0' c = tgtsOf c0 c)
    (hsrcany : ∀ s, isSourceAnywhere c0' s = isSourceAnywhere c0 s)
    (hsrc : ∀ c x, x ∈ srcsOf c0' c ↔ x ∈ srcsOf c0 c)
    (hids : ∀ x, x ∈ chanKeys c0' ↔ x ∈ chanKeys c0)
    (ρ : String → Option Int) (i : Int) :
    canonProgress s0' c0' ρ i = canonProgress s0 c0 ρ i := by
  have hfun : resolvesNow s0' c0' ρ i = resolvesNow s0 c0 ρ i :=
    funext (fun c => resolvesNow_ext hprod htgt hsrcany hsrc ρ i c)
  rw [canonProgress, canonProgress, hfun, any_congr_mem hids]

theorem canonLoop_ext {s0 s0' : List (String × SiteState)}
    {c0 c0' : List (String × ChannelState)}
    (hprod : ∀ s, prodOf s0' s = prodOf s0 s)
    (htgt : ∀ c, tgtsOf c0' c = tgtsOf c0 c)
    (hsrcany : ∀ s, isSourceAnywhere c0' s = isSourceAnywhere c0 s)
    (hsrc : ∀ c x, x ∈ srcsOf c0' c ↔ x ∈ srcsOf c0 c)
    (hids : ∀ x, x ∈ chanKeys c0' ↔ x ∈ chanKeys c0) :
    ∀ (fuel : Nat) (i : Int) (ρ : String → Option Int),
      canonLoop s0' c0' fuel i ρ = canonLoop s0 c0 fuel i ρ := by
  intro fuel
  induction fuel with
  | zero => intro i ρ; rfl
  | succ fuel ih =>
      intro i ρ
      show (if canonProgress s0' c0' ρ i then
              canonLoop s0' c0' fuel (i + 1) (canonStep s0' c0' ρ i)
            else (ρ, i + 1))
          = (if canonProgress s0 c0 ρ i then
              canonLoop s0 c0 fuel (i + 1) (canonStep s0 c0 ρ i)
            else (ρ, i + 1))
      rw [canonProgress_ext hprod htgt hsrcany hsrc hids,
        canonStep_ext hprod htgt hsrcany hsrc hids, ih]

/-! ### `computeOrder` preserves the graph structure -/

theorem prodOf_finalSites (nw : Network) (s : String) :
    prodOf (finalSitesOf nw) s = prodOf nw.sites s := by
  rw [prodOf, prodOf, finalSitesOf, dictFind_setLevels]
  cases dictFind nw.sites s <;> rfl

theorem tgtsOf_finalChans (nw : Network) (hndC : (chanKeys nw.channels).Nodup)
    (c : String) : tgtsOf (finalChansOf nw) c = tgtsOf nw.channels c := by
  rw [tgtsOf, tgtsOf, dictFind_finalChans nw hndC c]
  cases dictFind nw.channels c <;> rfl

theorem srcsOf_finalChans_mem (nw : Network) (hndC : (chanKeys nw.channels).Nodup)
    (c x : String) : x ∈ srcsOf (finalChansOf nw) c ↔ x ∈ srcsOf nw.channels c := by
  rw [srcsOf, srcsOf, dictFind_finalChans nw hndC c]
  cases h : dictFind nw.channels c with
  | none => exact Iff.rfl
  | some cst =>
      show x ∈ sortSrcByLevel (finalSitesOf nw) cst.source ↔ x ∈ cst.source
      exact (sortSrcByLevel_perm (finalSitesOf nw) cst.source).mem_iff

theorem chanKeys_finalChans_perm (nw : Network) :
    (chanKeys (finalChansOf nw)).Perm (chanKeys nw.channels) := by
  have h1 : chanKeys (finalChansOf nw)
      = chanKeys (sortChansByLevel (setChanLevels nw.channels
          (canonChan (canonFinal nw).1))) := by
    rw [finalChansOf, chanKeys, chanKeys, List.map_map]
    exact List.map_congr_left (fun p _ => rfl)
  rw [h1]
  have h2 := (sortChansByLevel_perm (setChanLevels nw.channels
    (canonChan (canonFinal nw).1))).map Prod.fst
  have h3 : (setChanLevels nw.channels (canonChan (canonFinal nw).1)).map Prod.fst
      = chanKeys nw.channels := chanKeys_setChanLevels nw.channels _
  exact h3 ▸ h2

theorem finalChans_length (nw : Network) :
    (finalChansOf nw).length = nw.channels.length := by
  rw [finalChansOf, List.length_map,
    (sortChansByLevel_perm (setChanLevels nw.channels (canonChan (canonFinal nw).1))).length_eq]
  simp [setChanLevels]

theorem isSourceAnywhere_finalChans (nw : Network)
    (hndC : (chanKeys nw.channels).Nodup) (s : String) :
    isSourceAnywhere (finalChansOf nw) s = isSourceAnywhere nw.channels s := by
  apply bool_eq_of_true_iff
  have hnd1 : (chanKeys (finalChansOf nw)).Nodup :=
    ((chanKeys_finalChans_perm nw).nodup_iff).mpr hndC
  rw [isSourceAnywhere_iff hnd1, isSourceAnywhere_iff hndC]
  constructor
  · rintro ⟨c, hc, hs⟩
    exact ⟨c, (chanKeys_finalChans_perm nw).mem_iff.mp hc,
      (srcsOf_finalChans_mem nw hndC c s).mp hs⟩
  · rintro ⟨c, hc, hs⟩
    exact ⟨c, (chanKeys_finalChans_perm nw).mem_iff.mpr hc,
      (srcsOf_finalChans_mem nw hndC c s).mpr hs⟩

theorem WFNet_computeOrder (nw : Network) (hWF : WFNet nw)
    (hlen : nw.channels.length ≤ 990) : WFNet (computeOrder nw).nw := by
  rw [computeOrder_eq nw hWF hlen]
  constructor
  · show (siteKeys (finalSitesOf nw)).Nodup
    rw [finalSitesOf, siteKeys_setLevels]
    exact hWF.ndS
  · show (chanKeys (finalChansOf nw)).Nodup
    exact ((chanKeys_finalChans_perm nw).nodup_iff).mpr hWF.ndC
  · show ∀ p ∈ finalChansOf nw, ∀ s ∈ p.2.target, prodOf (finalSitesOf nw) s = some p.1
    intro p hp s hs
    rw [prodOf_finalSites]
    rw [finalChansOf] at hp
    rcases List.mem_map.mp hp with ⟨q, hq, rfl⟩
    have hqY := (sortChansByLevel_perm _).mem_iff.mp hq
    rw [setChanLevels] at hqY
    rcases List.mem_map.mp hqY with ⟨r, hr, rfl⟩
    exact hWF.w1 r hr s hs

theorem canonFinal_computeOrder (nw : Network) (hWF : WFNet nw)
    (hlen : nw.channels.length ≤ 990) :
    canonFinal (computeOrder nw).nw = canonFinal nw := by
  rw [computeOrder_eq nw hWF hlen]
  show canonLoop (finalSitesOf nw) (finalChansOf nw)
      ((finalChansOf nw).length + 10) 0 (fun _ => none) = _
  rw [finalChans_length]
  exact canonLoop_ext (prodOf_finalSites nw) (tgtsOf_finalChans nw hWF.ndC)
    (isSourceAnywhere_finalChans nw hWF.ndC)
    (fun c x => srcsOf_finalChans_mem nw hWF.ndC c x)
    (fun x => (chanKeys_finalChans_perm nw).mem_iff)
    (nw.channels.length + 10) 0 (fun _ => none)

/-! ### Linear chains -/

/-- A leaf site of the canonical linear-chain network. -/
def mkChainSite (prodRef : Option String) : SiteState :=
  { labelAttr := some none, producer := prodRef, level := 4000,
    subStore := .emptyDict, srcAttr := false }

/-- Channel `k` of the chain: source site `k`, target site `k + 1`. -/
def mkChainChannel (cid src tgt : String) : ChannelState :=
  { label := cid, source := [src], target := [tgt], level := -1 }

/-- The linear chain network on the given site and channel ids: channel `k`
takes site `k` as its only source and site `k + 1` as its only target, with
the producer references construction through the API leaves behind. -/
def chainNw (sids cids : List String) : Network :=
  { sites := (List.range sids.length).map (fun k =>
      (sids.getD k "", mkChainSite (if k = 0 then none else some (cids.getD (k - 1) "")))),
    channels := (List.range cids.length).map (fun k =>
      (cids.getD k "", mkChainChannel (cids.getD k "") (sids.getD k "") (sids.getD (k + 1) ""))),
    siteIx := sids.length, channelIx := cids.length }

theorem dictFind_cons_self {β : Type} (a : String) (b : β) (l : List (String × β)) :
    dictFind ((a, b) :: l) a = some b := by
  simp [dictFind]

theorem dictFind_cons_ne {β : Type} {a k : String} (b : β) (l : List (String × β))
    (h : a ≠ k) : dictFind ((a, b) :: l) k = dictFind l k := by
  simp only [dictFind, List.find?]
  rw [show (decide (a = k)) = false by simpa using h]

theorem dictFind_range_map {β : Type} :
    ∀ (n : Nat) (f : Nat → String) (g : Nat → β) (k : Nat), k < n →
      (∀ j, j < n → f j = f k → j = k) →
      dictFind ((List.range n).map (fun j => (f j, g j))) (f k) = some (g k) := by
  intro n
  induction n with
  | zero =>
      intro f g k hk hinj
      exact absurd hk (by omega)
  | succ n ih =>
      intro f g k hk hinj
      rw [List.range_succ_eq_map, List.map_cons, List.map_map]
      by_cases hk0 : k = 0
      · subst hk0
        exact dictFind_cons_self (f 0) (g 0) _
      · have hne : f 0 ≠ f k := fun h => hk0 ((hinj 0 (by omega) h).symm)
        rw [dictFind_cons_ne _ _ hne]
        obtain ⟨k', rfl⟩ : ∃ k', k = k' + 1 := ⟨k - 1, by omega⟩
        exact ih (fun j => f (j + 1)) (fun j => g (j + 1)) k' (by omega)
          (fun j hj hfj => by
            have := hinj (j + 1) (by omega) hfj
            omega)

theorem range_map_getD {β : Type} (d : β) :
    ∀ (l : List β), (List.range l.length).map (fun k => l.getD k d) = l := by
  intro l
  induction l with
  | nil => rfl
  | cons x xs ih =>
      rw [List.length_cons, List.range_succ_eq_map, List.map_cons, List.map_map]
      have hcomp : (fun k => (x :: xs).getD k d) ∘ Nat.succ = fun k => xs.getD k d := by
        funext k
        simp [Function.comp]
      rw [hcomp, ih]
      rfl

theorem nodup_getD_inj {l : List String} (hnd : l.Nodup) {j k : Nat}
    (hj : j < l.length) (hk : k < l.length) (h : l.getD j "" = l.getD k "") : j = k := by
  rw [List.getD_eq_getElem _ _ hj, List.getD_eq_getElem _ _ hk] at h
  have h1 := List.indexOf_getElem hnd j hj
  have h2 := List.indexOf_getElem hnd k hk
  rw [← h1, ← h2, h]

theorem chainNw_siteKeys (sids cids : List String) :
    siteKeys (chainNw sids cids).sites = sids := by
  rw [chainNw, siteKeys, List.map_map]
  have hcomp : (Prod.fst ∘ fun k => ((sids.getD k "",
      mkChainSite (if k = 0 then none else some (cids.getD (k - 1) ""))) : String × SiteState))
      = fun k => sids.getD k "" := by
    funext k
    rfl
  rw [hcomp, range_map_getD]

theorem chainNw_chanKeys (sids cids : List String) :
    chanKeys (chainNw sids cids).channels = cids := by
  rw [chainNw, chanKeys, List.map_map]
  have hcomp : (Prod.fst ∘ fun k => ((cids.getD k "",
      mkChainChannel (cids.getD k "") (sids.getD k "") (sids.getD (k + 1) "")) : String × ChannelState))
      = fun k => cids.getD k "" := by
    funext k
    rfl
  rw [hcomp, range_map_getD]

theorem chain_site_find (sids cids : List String) (hndS : sids.Nodup) {k : Nat}
    (hk : k < sids.length) :
    dictFind (chainNw sids cids).sites (sids.getD k "")
      = some (mkChainSite (if k = 0 then none else some (cids.getD (k - 1) ""))) := by
  exact dictFind_range_map sids.length (fun j => sids.getD j "")
    (fun j => mkChainSite (if j = 0 then none else some (cids.getD (j - 1) ""))) k hk
    (fun j hj hf => nodup_getD_inj hndS hj hk hf)

theorem chain_chan_find (sids cids : List String) (hndC : cids.Nodup) {k : Nat}
    (hk : k < cids.length) :
    dictFind (chainNw sids cids).channels (cids.getD k "")
      = some (mkChainChannel (cids.getD k "") (sids.getD k "") (sids.getD (k + 1) "")) := by
  exact dictFind_range_map cids.length (fun j => cids.getD j "")
    (fun j => mkChainChannel (cids.getD j "") (sids.getD j "") (sids.getD (j + 1) "")) k hk
    (fun j hj hf => nodup_getD_inj hndC hj hk hf)

theorem chain_prodOf (sids cids : List String) (hndS : sids.Nodup) {k : Nat}
    (hk : k < sids.length) :
    prodOf (chainNw sids cids).sites (sids.getD k "")
      = if k = 0 then none else some (cids.getD (k - 1) "") := by
  rw [prodOf, chain_site_find sids cids hndS hk]
  rfl

theorem chain_srcsOf (sids cids : List String) (hndC : cids.Nodup) {k : Nat}
    (hk : k < cids.length) :
    srcsOf (chainNw sids cids).channels (cids.getD k "") = [sids.getD k ""] := by
  rw [srcsOf, chain_chan_find sids cids hndC hk]
  rfl

theorem chain_tgtsOf (sids cids : List String) (hndC : cids.Nodup) {k : Nat}
    (hk : k < cids.length) :
    tgtsOf (chainNw sids cids).channels (cids.getD k "") = [sids.getD (k + 1) ""] := by
  rw [tgtsOf, chain_chan_find sids cids hndC hk]
  rfl

/-- Resolution map of the chain after the first `t` channels resolved:
channel `k` resolved at step `k`, exactly when `k < t`. -/
def chainRes (cids : List String) (t : Nat) : String → Option Int :=
  fun c => if c ∈ cids ∧ cids.indexOf c < t then some ((cids.indexOf c : Nat) : Int) else none

theorem chainRes_zero (cids : List String) : chainRes cids 0 = fun _ => none := by
  funext c
  simp [chainRes]

theorem chainRes_getD (cids : List String) (hndC : cids.Nodup) {k : Nat}
    (hk : k < cids.length) (t : Nat) :
    chainRes cids t (cids.getD k "") = if k < t then some ((k : Nat) : Int) else none := by
  have hmem : cids.getD k "" ∈ cids := by
    rw [List.getD_eq_getElem _ _ hk]
    exact List.getElem_mem hk
  have hidx : cids.indexOf (cids.getD k "") = k := by
    rw [List.getD_eq_getElem _ _ hk]
    exact List.indexOf_getElem hndC k hk
  rw [chainRes]
  by_cases hkt : k < t
  · rw [if_pos ⟨hmem, by rw [hidx]; exact hkt⟩, hidx, if_pos hkt]
  · rw [if_neg (fun h => hkt (by rw [hidx] at h; exact h.2)), if_neg hkt]

theorem chain_canonSite_zero (sids cids : List String) (hndS : sids.Nodup)
    (hlen : cids.length + 1 = sids.length) (hn2 : 2 ≤ sids.length)
    (ρ : String → Option Int) :
    canonSite (chainNw sids cids).sites (chainNw sids cids).channels ρ (sids.getD 0 "") = 0 := by
  have hp : prodOf (chainNw sids cids).sites (sids.getD 0 "") = none := by
    rw [chain_prodOf sids cids hndS (by omega)]
    rfl
  rw [canonSite_prod_none hp]
  have hsrc0 : isSourceAnywhere (chainNw sids cids).channels (sids.getD 0 "") = true := by
    apply List.any_eq_true.mpr
    refine ⟨(cids.getD 0 "", mkChainChannel (cids.getD 0 "") (sids.getD 0 "") (sids.getD 1 "")),
      ?_, ?_⟩
    · show _ ∈ (List.range cids.length).map (fun k =>
        (cids.getD k "", mkChainChannel (cids.getD k "") (sids.getD k "") (sids.getD (k + 1) "")))
      exact List.mem_map.mpr ⟨0, List.mem_range.mpr (by omega), rfl⟩
    · simp [mkChainChannel]
  rw [hsrc0]
  rfl

theorem chain_canonSite_succ (sids cids : List String) (hndS : sids.Nodup)
    (hndC : cids.Nodup) (hlen : cids.length + 1 = sids.length) {k : Nat}
    (hk1 : 1 ≤ k) (hk : k < sids.length) (t : Nat) :
    canonSite (chainNw sids cids).sites (chainNw sids cids).channels (chainRes cids t)
        (sids.getD k "")
      = if k - 1 < t then ((k : Nat) : Int) else 1000 := by
  have hkc : k - 1 < cids.length := by omega
  have hp : prodOf (chainNw sids cids).sites (sids.getD k "")
      = some (cids.getD (k - 1) "") := by
    rw [chain_prodOf sids cids hndS hk, if_neg (by omega)]
  have hρ := chainRes_getD cids hndC hkc t
  by_cases hkt : k - 1 < t
  · rw [if_pos hkt] at hρ
    rw [canonSite_prod_resolved hp hρ, chain_tgtsOf sids cids hndC hkc, if_pos ?_, if_pos hkt]
    · omega
    · rw [show k - 1 + 1 = k from by omega]
      exact List.mem_singleton.mpr rfl
  · rw [if_neg hkt] at hρ
    rw [canonSite_prod_unresolved hp hρ, if_neg hkt]

theorem chain_resolvesNow (sids cids : List String) (hndS : sids.Nodup)
    (hndC : cids.Nodup) (hlen : cids.length + 1 = sids.length) (hn2 : 2 ≤ sids.length)
    (hsize : cids.length ≤ 990) {t k : Nat} (ht : t ≤ cids.length)
    (hk : k < cids.length) :
    resolvesNow (chainNw sids cids).sites (chainNw sids cids).channels (chainRes cids t)
        ((t : Nat) : Int) (cids.getD k "")
      = decide (k = t) := by
  rw [resolvesNow, chain_srcsOf sids cids hndC hk, chainRes_getD cids hndC hk t]
  by_cases hkt : k < t
  · rw [if_pos hkt]
    have : k ≠ t := by omega
    simp [this]
  · rw [if_neg hkt]
    simp only [Option.isNone_none, Bool.true_and, List.all_cons, List.all_nil, Bool.and_true]
    by_cases hk0 : k = 0
    · subst hk0
      have ht0 : t = 0 := by omega
      subst ht0
      rw [chain_canonSite_zero sids cids hndS hlen hn2]
      simp
    · rw [chain_canonSite_succ sids cids hndS hndC hlen (by omega) (by omega) t]
      by_cases hkeq : k = t
      · subst hkeq
        rw [if_pos (by omega)]
        simp
      · rw [if_neg (by omega)]
        have h1 : ¬((1000 : Int) ≤ ((t : Nat) : Int)) := by
          omega
        simp [h1, hkeq]

theorem chain_canonStep (sids cids : List String) (hndS : sids.Nodup)
    (hndC : cids.Nodup) (hlen : cids.length + 1 = sids.length) (hn2 : 2 ≤ sids.length)
    (hsize : cids.length ≤ 990) {t : Nat} (ht : t < cids.length) :
    canonStep (chainNw sids cids).sites (chainNw sids cids).channels (chainRes cids t)
        ((t : Nat) : Int)
      = chainRes cids (t + 1) := by
  funext c
  rw [canonStep, stepRes]
  by_cases hc : c ∈ cids
  · have hidxlt : cids.indexOf c < cids.length := List.indexOf_lt_length.mpr hc
    have hc' : cids.getD (cids.indexOf c) "" = c := by
      rw [List.getD_eq_getElem _ _ hidxlt]
      exact List.getElem_indexOf hidxlt
    have hkeys : c ∈ chanKeys (chainNw sids cids).channels := by
      rw [chainNw_chanKeys]
      exact hc
    have hres := chain_resolvesNow sids cids hndS hndC hlen hn2 hsize
      (le_of_lt ht) hidxlt
    rw [hc'] at hres
    by_cases hkeq : cids.indexOf c = t
    · rw [if_pos ⟨hkeys, by rw [hres]; exact decide_eq_true hkeq⟩]
      rw [chainRes, if_pos ⟨hc, by omega⟩, hkeq]
    · rw [if_neg (fun h => hkeq (of_decide_eq_true (hres ▸ h.2)))]
      rw [chainRes, chainRes]
      by_cases hlt : cids.indexOf c < t
      · rw [if_pos ⟨hc, hlt⟩, if_pos ⟨hc, by omega⟩]
      · rw [if_neg (fun h => hlt h.2), if_neg (fun h => by
          have := h.2
          omega)]
  · have hkeys : c ∉ chanKeys (chainNw sids cids).channels := by
      rw [chainNw_chanKeys]
      exact hc
    rw [if_neg (fun h => hkeys h.1), chainRes, chainRes,
      if_neg (fun h => hc h.1), if_neg (fun h => hc h.1)]

theorem chain_canonProgress_true (sids cids : List String) (hndS : sids.Nodup)
    (hndC : cids.Nodup) (hlen : cids.length + 1 = sids.length) (hn2 : 2 ≤ sids.length)
    (hsize : cids.length ≤ 990) {t : Nat} (ht : t < cids.length) :
    canonProgress (chainNw sids cids).sites (chainNw sids cids).channels (chainRes cids t)
        ((t : Nat) : Int) = true := by
  apply List.any_eq_true.mpr
  refine ⟨cids.getD t "", ?_, ?_⟩
  · rw [chainNw_chanKeys]
    rw [List.getD_eq_getElem _ _ ht]
    exact List.getElem_mem ht
  · rw [chain_resolvesNow sids cids hndS hndC hlen hn2 hsize (le_of_lt ht) ht]
    exact decide_eq_true rfl

theorem chain_canonProgress_false (sids cids : List String) :
    canonProgress (chainNw sids cids).sites (chainNw sids cids).channels
        (chainRes cids cids.length) ((cids.length : Nat) : Int) = false := by
  cases hb : canonProgress (chainNw sids cids).sites (chainNw sids cids).channels
      (chainRes cids cids.length) ((cids.length : Nat) : Int) with
  | false => rfl
  | true =>
      exfalso
      rcases List.any_eq_true.mp hb with ⟨c, hcK, hres⟩
      rw [chainNw_chanKeys] at hcK
      have hidxlt := List.indexOf_lt_length.mpr hcK
      have hsome : chainRes cids cids.length c
          = some ((cids.indexOf c : Nat) : Int) := by
        rw [chainRes, if_pos ⟨hcK, hidxlt⟩]
      rw [resolvesNow, hsome] at hres
      simp at hres

theorem chain_canonLoop (sids cids : List String) (hndS : sids.Nodup)
    (hndC : cids.Nodup) (hlen : cids.length + 1 = sids.length) (hn2 : 2 ≤ sids.length)
    (hsize : cids.length ≤ 990) :
    ∀ (d t : Nat), t + d = cids.length →
      canonLoop (chainNw sids cids).sites (chainNw sids cids).channels (d + 10)
          ((t : Nat) : Int) (chainRes cids t)
        = (chainRes cids cids.length, ((cids.length : Nat) : Int) + 1) := by
  intro d
  induction d with
  | zero =>
      intro t hteq
      have ht : t = cids.length := by omega
      subst ht
      show (if canonProgress (chainNw sids cids).sites (chainNw sids cids).channels
              (chainRes cids cids.length) ((cids.length : Nat) : Int) then
            canonLoop (chainNw sids cids).sites (chainNw sids cids).channels 9
              (((cids.length : Nat) : Int) + 1)
              (canonStep (chainNw sids cids).sites (chainNw sids cids).channels
                (chainRes cids cids.length) ((cids.length : Nat) : Int))
          else (chainRes cids cids.length, ((cids.length : Nat) : Int) + 1)) = _
      rw [chain_canonProgress_false sids cids]
      simp
  | succ d ih =>
      intro t hteq
      have ht : t < cids.length := by omega
      show (if canonProgress (chainNw sids cids).sites (chainNw sids cids).channels
              (chainRes cids t) ((t : Nat) : Int) then
            canonLoop (chainNw sids cids).sites (chainNw sids cids).channels (d + 10)
              (((t : Nat) : Int) + 1)
              (canonStep (chainNw sids cids).sites (chainNw sids cids).channels
                (chainRes cids t) ((t : Nat) : Int))
          else (chainRes cids t, ((t : Nat) : Int) + 1)) = _
      rw [chain_canonProgress_true sids cids hndS hndC hlen hn2 hsize ht,
        chain_canonStep sids cids hndS hndC hlen hn2 hsize ht]
      simp only [if_true]
      rw [show ((t : Nat) : Int) + 1 = (((t + 1 : Nat) : Nat) : Int) from by push_cast; ring]
      exact ih (t + 1) (by omega)

theorem chainNw_channels_length (sids cids : List String) :
    (chainNw sids cids).channels.length = cids.length := by
  simp [chainNw]

theorem chain_canonFinal (sids cids : List String) (hndS : sids.Nodup)
    (hndC : cids.Nodup) (hlen : cids.length + 1 = sids.length) (hn2 : 2 ≤ sids.length)
    (hsize : cids.length ≤ 990) :
    canonFinal (chainNw sids cids)
      = (chainRes cids cids.length, ((cids.length : Nat) : Int) + 1) := by
  rw [canonFinal, chainNw_channels_length, ← chainRes_zero cids]
  exact chain_canonLoop sids cids hndS hndC hlen hn2 hsize cids.length 0 (by omega)

theorem chainNw_WF (sids cids : List String) (hndS : sids.Nodup) (hndC : cids.Nodup)
    (hlen : cids.length + 1 = sids.length) : WFNet (chainNw sids cids) := by
  constructor
  · rw [chainNw_siteKeys]
    exact hndS
  · rw [chainNw_chanKeys]
    exact hndC
  · intro p hp s hs
    have hp' : p ∈ (List.range cids.length).map (fun k =>
        ((cids.getD k "", mkChainChannel (cids.getD k "") (sids.getD k "")
          (sids.getD (k + 1) "")) : String × ChannelState)) := hp
    rcases List.mem_map.mp hp' with ⟨k, hkr, rfl⟩
    have hk : k < cids.length := List.mem_range.mp hkr
    have hs' : s = sids.getD (k + 1) "" := List.mem_singleton.mp hs
    subst hs'
    rw [chain_prodOf sids cids hndS (by omega), if_neg (by omega)]
    rw [show k + 1 - 1 = k from by omega]

/-- Claim C3 (amended): on a linear chain of `n` sites and `n - 1`
channels, with `2 ≤ n` and at most `990` channels, `computeOrder` gives
site `k` level `k` and channel `k` level `k`.  Both bounds are necessary:
the one-site chain is left at the orphan level `-1`, and past roughly a
thousand channels the loop index meets the pending sentinel `1000` and the
tail of the chain is left at collided levels. -/
theorem chain_levels (sids cids : List String) (hndS : sids.Nodup) (hndC : cids.Nodup)
    (hlen : cids.length + 1 = sids.length) (hn2 : 2 ≤ sids.length)
    (hsize : cids.length ≤ 990) :
    (∀ k, k < sids.length →
      siteLevelOf (computeOrder (chainNw sids cids)).nw (sids.getD k "")
        = some ((k : Nat) : Int))
    ∧ (∀ k, k < cids.length →
      chanLevelOf (computeOrder (chainNw sids cids)).nw (cids.getD k "")
        = some ((k : Nat) : Int)) := by
  have hWF := chainNw_WF sids cids hndS hndC hlen
  have hlen990 : (chainNw sids cids).channels.length ≤ 990 := by
    rw [chainNw_channels_length]
    exact hsize
  constructor
  · intro k hk
    rw [computeOrder_siteLevelOf (chainNw sids cids) hWF hlen990 (sids.getD k ""),
      chain_site_find sids cids hndS hk, chain_canonFinal sids cids hndS hndC hlen hn2 hsize]
    show some (canonSite (chainNw sids cids).sites (chainNw sids cids).channels
      (chainRes cids cids.length) (sids.getD k "")) = _
    by_cases hk0 : k = 0
    · subst hk0
      rw [chain_canonSite_zero sids cids hndS hlen hn2]
      rfl
    · rw [chain_canonSite_succ sids cids hndS hndC hlen (by omega) hk cids.length,
        if_pos (by omega)]
  · intro k hk
    rw [computeOrder_chanLevelOf (chainNw sids cids) hWF hlen990 (cids.getD k ""),
      chain_chan_find sids cids hndC hk, chain_canonFinal sids cids hndS hndC hlen hn2 hsize]
    show some (canonChan (chainRes cids cids.length) (cids.getD k "")) = _
    rw [canonChan, chainRes_getD cids hndC hk cids.length, if_pos hk]

/-! ### Cyclic dependency components never resolve -/

theorem cyclic_canonStep (nw : Network) (S : List String)
    (hcyc : ∀ c ∈ S, ∃ s ∈ srcsOf nw.channels c, ∃ d ∈ S, prodOf nw.sites s = some d)
    (ρ : String → Option Int) (i : Int) (hi : i < 1000)
    (hinv : ∀ c ∈ S, ρ c = none) :
    ∀ c ∈ S, canonStep nw.sites nw.channels ρ i c = none := by
  intro c hc
  rw [canonStep, stepRes]
  by_cases hcond : c ∈ chanKeys nw.channels ∧ resolvesNow nw.sites nw.channels ρ i c = true
  · exfalso
    rcases hcyc c hc with ⟨s, hs, d, hd, hprod⟩
    have hall := (Bool.and_eq_true _ _ |>.mp hcond.2).2
    have hle := of_decide_eq_true (List.all_eq_true.mp hall s hs)
    rw [canonSite_prod_unresolved hprod (hinv d hd)] at hle
    omega
  · rw [if_neg hcond]
    exact hinv c hc

theorem cyclic_canonLoop (nw : Network) (S : List String)
    (hcyc : ∀ c ∈ S, ∃ s ∈ srcsOf nw.channels c, ∃ d ∈ S, prodOf nw.sites s = some d) :
    ∀ (fuel : Nat) (i : Int) (ρ : String → Option Int), i + fuel ≤ 1000 →
      (∀ c ∈ S, ρ c = none) →
      ∀ c ∈ S, (canonLoop nw.sites nw.channels fuel i ρ).1 c = none := by
  intro fuel
  induction fuel with
  | zero =>
      intro i ρ hcap hinv c hc
      exact hinv c hc
  | succ fuel ih =>
      intro i ρ hcap hinv c hc
      have hi : i < 1000 := by
        have : (0 : Int) ≤ (fuel : Int) := Int.natCast_nonneg fuel
        push_cast at hcap
        omega
      show ((if canonProgress nw.sites nw.channels ρ i then
          canonLoop nw.sites nw.channels fuel (i + 1) (canonStep nw.sites nw.channels ρ i)
        else (ρ, i + 1)) : (String → Option Int) × Int).1 c = none
      by_cases hprog : canonProgress nw.sites nw.channels ρ i = true
      · rw [hprog, if_pos rfl]
        exact ih (i + 1) (canonStep nw.sites nw.channels ρ i)
          (by push_cast at hcap ⊢; omega)
          (cyclic_canonStep nw S hcyc ρ i hi hinv) c hc
      · rw [if_neg (by simpa using hprog)]
        exact hinv c hc

/-- Producers only ever point at registered channels (channels are created
registered and never deleted, and `add_output` stores the live channel). -/
def producerClosed (nw : Network) : Bool :=
  nw.sites.all (fun p =>
    match p.2.producer with
    | none => true
    | some c => (chanKeys nw.channels).contains c)

/-- C6: on a network with an empty channel mapping, `computeOrder` leaves
every site at the orphaned sentinel `-1` and promotes nothing (the channel
dict stays empty, and no site reaches any other level). -/
theorem computeOrder_empty_channels (nw : Network) (hWF : WFNet nw)
    (hch : nw.channels = []) (hpc : producerClosed nw = true) :
    (∀ s ∈ siteKeys nw.sites, siteLevelOf (computeOrder nw).nw s = some (-1))
    ∧ (computeOrder nw).nw.channels = [] := by
  have hlen : nw.channels.length ≤ 990 := by
    rw [hch]
    simp
  constructor
  · intro s hs
    rw [computeOrder_siteLevelOf nw hWF hlen s]
    obtain ⟨st, hst⟩ : ∃ st, dictFind nw.sites s = some st := by
      cases hf : dictFind nw.sites s with
      | none => exact absurd hs (dictFind_eq_none_iff.mp hf)
      | some st => exact ⟨st, rfl⟩
    rw [hst]
    have hpnone : prodOf nw.sites s = none := by
      rw [prodOf, hst]
      cases hp : st.producer with
      | none => exact hp
      | some c =>
          exfalso
          rw [producerClosed] at hpc
          have hb := List.all_eq_true.mp hpc _ (mem_of_dictFind_eq_some hst)
          rw [hp, hch] at hb
          simp [chanKeys] at hb
    show some (canonSite nw.sites nw.channels (canonFinal nw).1 s) = some (-1)
    rw [canonSite_prod_none hpnone]
    have hsa : isSourceAnywhere nw.channels s = false := by
      rw [hch]
      rfl
    rw [hsa]
    rfl
  · rw [computeOrder_eq nw hWF hlen]
    show finalChansOf nw = []
    rw [finalChansOf, hch]
    rfl

/-! ### Termination of the relaxation loop -/

theorem relaxLoop_finalI_le :
    ∀ (fuel : Nat) (i : Int) (nw : Network), (relaxLoop fuel i nw).2 ≤ i + fuel := by
  intro fuel
  induction fuel with
  | zero =>
      intro i nw
      simp [relaxLoop]
  | succ fuel ih =>
      intro i nw
      show ((let r := relaxPass i nw
        if r.2 then (r.1, i + 1) else relaxLoop fuel (i + 1) r.1) : Network × Int).2 ≤ _
      by_cases hdone : (relaxPass i nw).2 = true
      · rw [show (let r := relaxPass i nw
            if r.2 then (r.1, i + 1) else relaxLoop fuel (i + 1) r.1)
            = ((relaxPass i nw).1, i + 1) from by rw [if_pos hdone]]
        show i + 1 ≤ i + ((fuel : Int) + 1)
        have : (0 : Int) ≤ (fuel : Int) := Int.natCast_nonneg fuel
        omega
      · rw [show (let r := relaxPass i nw
            if r.2 then (r.1, i + 1) else relaxLoop fuel (i + 1) r.1)
            = relaxLoop fuel (i + 1) (relaxPass i nw).1 from by rw [if_neg hdone]]
        have := ih (i + 1) (relaxPass i nw).1
        push_cast at this ⊢
        omega

theorem seedChannel_channels_length (nw : Network) (cid : String) :
    (seedChannel nw cid).channels.length = nw.channels.length := by
  rw [seedChannel]
  cases lookupC (updC nw.channels cid (fun c => { c with level := 1000 })) cid <;>
    simp [updC, dictUpd]

theorem seedFold_channels_length :
    ∀ (L : List String) (nw : Network),
      (L.foldl seedChannel nw).channels.length = nw.channels.length := by
  intro L
  induction L with
  | nil => intro nw; rfl
  | cons c L ih =>
      intro nw
      rw [List.foldl_cons, ih, seedChannel_channels_length]

/-- C9: `computeOrder` terminates — the relaxation loop executes at most
`channel_count + 10` passes (the final index, which counts the executed
passes, is bounded by the cap), and it stops as soon as a full pass
resolves no channel (the `done` flag survives the pass). -/
theorem computeOrder_terminates (nw : Network) :
    (computeOrder nw).finalI ≤ (nw.channels.length : Int) + 10
    ∧ ∀ (fuel : Nat) (i : Int) (m : Network), (relaxPass i m).2 = true →
        relaxLoop (fuel + 1) i m = ((relaxPass i m).1, i + 1) := by
  constructor
  · show (relaxLoop ((seedPhase (resetLevels nw)).channels.length + 10) 0
        (seedPhase (resetLevels nw))).2 ≤ _
    have hle := relaxLoop_finalI_le ((seedPhase (resetLevels nw)).channels.length + 10) 0
      (seedPhase (resetLevels nw))
    have hlen2 : (seedPhase (resetLevels nw)).channels.length = nw.channels.length := by
      rw [seedPhase]
      rw [seedFold_channels_length]
      rfl
    rw [hlen2] at hle
    rw [show ((seedPhase (resetLevels nw)).channels.length + 10)
        = (nw.channels.length + 10) from by rw [hlen2]]
    push_cast at hle ⊢
    omega
  · intro fuel i m h
    rw [show relaxLoop (fuel + 1) i m
        = (let r := relaxPass i m
           if r.2 then (r.1, i + 1) else relaxLoop fuel (i + 1) r.1) from rfl]
    rw [show (let r := relaxPass i m
        if r.2 then (r.1, i + 1) else relaxLoop fuel (i + 1) r.1)
        = ((relaxPass i m).1, i + 1) from by rw [if_pos h]]

/-! ### Concrete networks used as witnesses and counterexamples -/

/-- The empty network, as `Network()` constructs it. -/
def nwEmpty : Network := { sites := [], channels := [], siteIx := 0, channelIx := 0 }

/-- A labeled leaf site, as `Site(nw, label)` constructs it. -/
def leafSite (l : String) : SiteState :=
  { labelAttr := some (some l), producer := none, level := 4000,
    subStore := .emptyDict, srcAttr := false }

/-- Two sites and the channel A -> B, as built by two `site(·, create)`
calls followed by `channel(a, b)`. -/
def nwAB : Network :=
  { sites := [("_s0", leafSite "A"), ("_s1", { leafSite "B" with producer := some "_c0" })],
    channels := [("_c0", { label := "_c0", source := ["_s0"], target := ["_s1"], level := -1 })],
    siteIx := 2, channelIx := 1 }

/-- Sanity: `nwAB` is exactly what the construction operations build. -/
theorem nwAB_built :
    (match siteCall nwEmpty [.str "A"] true with
     | .ok (_, nw1) =>
        match siteCall nw1 [.str "B"] true with
        | .ok (_, nw2) => (channelCall nw2 [.siteObj "_s0", .siteObj "_s1"]).1.2
        | .error _ => nwEmpty
     | .error _ => nwEmpty) = nwAB := by
  decide

/-- Three-site chain A -> B -> C with two channels. -/
def nwABC : Network :=
  { sites := [("_s0", leafSite "A"), ("_s1", { leafSite "B" with producer := some "_c0" }),
              ("_s2", { leafSite "C" with producer := some "_c1" })],
    channels := [("_c0", { label := "_c0", source := ["_s0"], target := ["_s1"], level := -1 }),
                 ("_c1", { label := "_c1", source := ["_s1"], target := ["_s2"], level := -1 })],
    siteIx := 3, channelIx := 2 }

/-- Two-channel dependency cycle on two sites. -/
def cyc2 : Network :=
  { sites := [("_s0", { labelAttr := some none, producer := some "_c1", level := 4000,
                        subStore := .emptyDict, srcAttr := false }),
              ("_s1", { labelAttr := some none, producer := some "_c0", level := 4000,
                        subStore := .emptyDict, srcAttr := false })],
    channels := [("_c0", { label := "_c0", source := ["_s0"], target := ["_s1"], level := -1 }),
                 ("_c1", { label := "_c1", source := ["_s1"], target := ["_s0"], level := -1 })],
    siteIx := 2, channelIx := 2 }

/-- One orphaned site, no channels. -/
def nwOrphan : Network :=
  { sites := [("_s0", leafSite "O")], channels := [], siteIx := 1, channelIx := 0 }

/-! ### The construction claims -/

/-- Claim C1 (code defect): `discard_output` removes the site from the
target set but does NOT clear `_producer` — it assigns the unrelated stray
`_source` attribute instead.  After `discard_output` of site B on channel
`_c0`, the producer of B is still `_c0`, so constructing a new channel
that targets B raises the single-producer violation naming `_c0`; the
claim (and the documented intent) says B must have become re-targetable. -/
theorem discardOutput_keeps_producer :
    ((lookupS (discardOutputNet nwAB "_c0" "_s1").sites "_s1").map (fun st => st.producer)
        = some (some "_c0"))
    ∧ ((lookupS (discardOutputNet nwAB "_c0" "_s1").sites "_s1").map (fun st => st.srcAttr)
        = some true)
    ∧ ((lookupC (discardOutputNet nwAB "_c0" "_s1").channels "_c0").map (fun c => c.target)
        = some [])
    ∧ ((channelCall (discardOutputNet nwAB "_c0" "_s1") [.siteObj "_s0", .siteObj "_s1"]).2
        = some (.singleProducer "_s1" "_c0")) := by
  decide

/-- Claim C2: a site whose producer is already channel `c1` cannot become
the output of a distinct channel.  A single-site `add_output` on a
registered channel `c2` raises the single-producer violation naming `c1`
and returns the network untouched; constructing a fresh channel with the
site as its only target raises the same violation, registers nothing, and
leaves the site and channel dicts (producers included) unmodified. -/
theorem singleProducer_violation (nw : Network) (S c1 c2 : String) (st : SiteState)
    (cst2 : ChannelState) (src : List String)
    (hS : lookupS nw.sites S = some st) (hprod : st.producer = some c1)
    (hne : c1 ≠ c2) (hc2 : lookupC nw.channels c2 = some cst2)
    (hfresh : c1 ≠ nextChannelId nw) :
    (addOutputNet nw c2 S = (nw, some (FlowErr.singleProducer S c1)))
    ∧ ((channelCreate nw src [S]).1.sites = nw.sites
      ∧ (channelCreate nw src [S]).1.channels = nw.channels
      ∧ (channelCreate nw src [S]).2.1 = none
      ∧ (channelCreate nw src [S]).2.2 = some (FlowErr.singleProducer S c1)) := by
  have hno2 : ¬(st.producer = none ∨ st.producer = some c2) := by
    rw [hprod]
    simp [hne]
  have hnofresh : ¬(st.producer = none ∨ st.producer = some (nextChannelId nw)) := by
    rw [hprod]
    simp [hfresh]
  have hone2 : addOutputOne c2 cst2 nw.sites S
      = .error (.singleProducer S c1) := by
    simp only [addOutputOne, hS]
    rw [if_neg hno2, hprod]
    rfl
  have honef : ∀ cst : ChannelState, addOutputOne (nextChannelId nw) cst nw.sites S
      = .error (.singleProducer S c1) := by
    intro cst
    simp only [addOutputOne, hS]
    rw [if_neg hnofresh, hprod]
    rfl
  constructor
  · simp only [addOutputNet, hc2, hone2]
  · simp only [channelCreate, channelInit, addOutputMany, honef]
    exact ⟨trivial, trivial, trivial, trivial⟩

/-- Witness for claim C2 on the three-site chain: site B is produced by
`_c0`; making it an output of `_c1`, or of a freshly built channel,
fails naming `_c0` and mutates nothing. -/
theorem singleProducer_violation_witness :
    (lookupS nwABC.sites "_s1" = some { leafSite "B" with producer := some "_c0" })
    ∧ (addOutputNet nwABC "_c1" "_s1" = (nwABC, some (FlowErr.singleProducer "_s1" "_c0")))
    ∧ ((channelCreate nwABC ["_s0"] ["_s1"]).1.channels = nwABC.channels)
    ∧ ((channelCreate nwABC ["_s0"] ["_s1"]).2.2
        = some (FlowErr.singleProducer "_s1" "_c0")) := by
  have h := singleProducer_violation nwABC "_s1" "_c0" "_c1"
    ({ leafSite "B" with producer := some "_c0" })
    ({ label := "_c1", source := ["_s1"], target := ["_s2"], level := -1 })
    ["_s0"] (by decide) (by decide) (by decide) (by decide) (by decide)
  exact ⟨by decide, h.1, h.2.2.1, h.2.2.2.2⟩

/-- The state of an unlabeled leaf site right after construction. -/
def unlabeledLeaf : SiteState :=
  { labelAttr := some none, producer := none, level := 4000,
    subStore := .emptyDict, srcAttr := false }

/-- The state of a group site wrapping the two sites `_s0` and `_s1`. -/
def groupState2 : SiteState :=
  { labelAttr := none, producer := none, level := 4000,
    subStore := .pairSet ["_s0", "_s1"], srcAttr := false }

/-- The state of a group site wrapping the single site `_s0`. -/
def groupState1 : SiteState :=
  { labelAttr := none, producer := none, level := 4000,
    subStore := .pairSet ["_s0"], srcAttr := false }

/-- Claim C7 (code defect): a group site stores its children as a SET of
`(id, child)` tuples (`{(a.id, a) for a in args}`), not as a dict keyed by
id, so the membership test `id in self._sites` compares a string against
tuples and is never true: retrieving a nested site fails with the
not-found error for EVERY identifier, including the ids of the wrapped
children themselves. -/
theorem group_site_lookup_always_fails :
    (siteInitState [.siteObj "_s0", .siteObj "_s1"] = .ok groupState2)
    ∧ (∀ childId : String,
        siteGet "_s2" groupState2 childId = .error (.notContains "_s2" childId)) := by
  constructor
  · rfl
  · intro childId
    rw [siteGet, if_neg ?_]
    simp [groupState2, SubStore.containsStr]

/-- Claim C8 (code defect): the label accessor returns the explicit label
of a labeled leaf and the id of an unlabeled leaf, but the group branch of
`Site.__init__` never assigns the `label` attribute, so for a group site
`_label()` raises `AttributeError` instead of returning the id. -/
theorem label_accessor_group_fails :
    (siteInitState [] = .ok unlabeledLeaf)
    ∧ (siteLabelAcc "_s0" unlabeledLeaf = .ok "_s0")
    ∧ (siteInitState [.str "A"] = .ok (leafSite "A"))
    ∧ (siteLabelAcc "_s0" (leafSite "A") = .ok "A")
    ∧ (siteInitState [.siteObj "_s0"] = .ok groupState1)
    ∧ (siteLabelAcc "_s1" groupState1 = .error (.attrMissing "label")) :=
  ⟨rfl, rfl, rfl, rfl, rfl, rfl⟩

/-- Claim C10: calling the site lookup with any argument shape other than
one string, or the channel dispatcher with an argument count other than
one-string or two, falls off the end of the dispatch and silently returns
`None` without touching the network and without raising. -/
theorem lookup_bad_args_return_none (nw : Network) (args cargs : List PyArg) (create : Bool)
    (hsite : ∀ a : String, args ≠ [PyArg.str a])
    (hchan1 : ∀ a : String, cargs ≠ [PyArg.str a])
    (hchan2 : cargs.length ≠ 2) :
    siteCall nw args create = .ok (none, nw)
    ∧ channelCall nw cargs = ((none, nw), none) := by
  constructor
  · rcases args with _ | ⟨a, _ | ⟨b, rest⟩⟩
    · rfl
    · cases a with
      | str s => exact absurd rfl (hsite s)
      | siteObj i => rfl
      | other => rfl
    · cases a <;> rfl
  · rcases cargs with _ | ⟨x, _ | ⟨y, rest⟩⟩
    · rfl
    · cases x with
      | str s => exact absurd rfl (hchan1 s)
      | siteObj i => rfl
      | other => rfl
    · rcases rest with _ | ⟨z, rest'⟩
      · exact absurd rfl hchan2
      · cases x <;> rfl

/-- Witness for claim C10: no arguments to the site lookup, and a single
non-string argument to the channel dispatcher, both return `None`. -/
theorem lookup_bad_args_witness :
    siteCall nwAB [] false = .ok (none, nwAB)
    ∧ channelCall nwAB [PyArg.other] = ((none, nwAB), none) := by
  have h := lookup_bad_args_return_none nwAB [] [PyArg.other] false
    (fun a => by simp) (fun a => by simp) (by simp)
  exact ⟨h.1, h.2⟩

/-! ### Counterexamples and witnesses for the leveling claims -/

/-- Claim C3 counterexample: the degenerate linear chain with one site and
zero channels is left at the orphan level `-1`, not at level `0` as the
claim asserts for site `i = 0`. -/
theorem chain_single_site_counterexample :
    siteLevelOf (computeOrder (chainNw ["_s0"] [])).nw "_s0" = some (-1)
    ∧ ¬siteLevelOf (computeOrder (chainNw ["_s0"] [])).nw "_s0" = some 0 := by
  decide

/-- Witness for claim C3 (amended) on the three-site chain. -/
theorem chain_levels_witness :
    ((["_s0", "_s1", "_s2"] : List String).Nodup)
    ∧ siteLevelOf (computeOrder (chainNw ["_s0", "_s1", "_s2"] ["_c0", "_c1"])).nw "_s2"
        = some 2
    ∧ chanLevelOf (computeOrder (chainNw ["_s0", "_s1", "_s2"] ["_c0", "_c1"])).nw "_c1"
        = some 1 := by
  have h := chain_levels ["_s0", "_s1", "_s2"] ["_c0", "_c1"]
    (by decide) (by decide) (by decide) (by decide) (by decide)
  exact ⟨by decide, h.1 2 (by decide), h.2 1 (by decide)⟩


/-- Claim C5 counterexample: on the two-channel cycle both channels stay
at the unreachable sentinel and the unreachable-channels warning fires,
yet the structure-computation-failure diagnostic does NOT fire: the loop
exits after one fruitless pass with `i = 1`, and `1 > len + 1` is false. -/
theorem cycle_no_convergence_warning :
    (computeOrder cyc2).failedStructure = false
    ∧ chanLevelOf (computeOrder cyc2).nw "_c0" = some 1000
    ∧ chanLevelOf (computeOrder cyc2).nw "_c1" = some 1000
    ∧ (computeOrder cyc2).unreachableChannels = ["_c0", "_c1"]
    ∧ (computeOrder cyc2).finalI = 1 := by
  decide


/-- Witness for claim C6 on a one-site, zero-channel network. -/
theorem computeOrder_empty_channels_witness :
    (producerClosed nwOrphan = true)
    ∧ siteLevelOf (computeOrder nwOrphan).nw "_s0" = some (-1)
    ∧ (computeOrder nwOrphan).nw.channels = [] := by
  have h := computeOrder_empty_channels nwOrphan ⟨by decide, by decide, by decide⟩ rfl
    (by decide)
  exact ⟨by decide, h.1 "_s0" (by decide), h.2⟩

/-- Witness for claim C9 on the empty network. -/
theorem computeOrder_terminates_witness :
    ((computeOrder nwEmpty).finalI ≤ (nwEmpty.channels.length : Int) + 10)
    ∧ relaxLoop 1 0 nwEmpty = ((relaxPass 0 nwEmpty).1, 0 + 1) :=
  ⟨(computeOrder_terminates nwEmpty).1,
   (computeOrder_terminates nwEmpty).2 0 0 nwEmpty (by decide)⟩

/-! ### The relaxation loop beyond the sentinel

Below the sentinel the pass is order-free.  At `i = 1000` the pending
sentinel `1000` satisfies the readiness test `level <= i`, so a pending
channel resolves unless one of its sources was promoted to `1001` EARLIER
IN THE SAME PASS: the pass becomes order-sensitive, and a resolution at
`i = 1000` writes the level `1000` itself.  After that pass every channel
level is `<= 1000 < i`, so the next pass is a no-op and the loop exits.
The model below captures the loop exactly for every channel count. -/

/-- One channel of the sequential pass at step `1000`, on resolution maps,
with mid-pass updates visible (mirror of `stepChannel 1000`). -/
def seqStep (s0 : List (String × SiteState)) (c0 : List (String × ChannelState))
    (acc : (String → Option Int) × Bool) (c : String) : (String → Option Int) × Bool :=
  match dictFind c0 c with
  | none => acc
  | some cst =>
      if canonChan acc.1 c < 1000 then acc
      else if cst.source.any (fun s => canonSite s0 c0 acc.1 s > 1000) then acc
      else ((fun x => if x = c then some 1000 else acc.1 x), false)

/-- The sequential pass at step `1000` over a list of channel ids. -/
def seqFold (s0 : List (String × SiteState)) (c0 : List (String × ChannelState))
    (L : List String) (acc : (String → Option Int) × Bool) : (String → Option Int) × Bool :=
  L.foldl (seqStep s0 c0) acc

/-- The full sequential pass at step `1000`, starting from `done = True`. -/
def seqPass (s0 : List (String × SiteState)) (c0 : List (String × ChannelState))
    (ρ : String → Option Int) : (String → Option Int) × Bool :=
  seqFold s0 c0 (chanKeys c0) (ρ, true)

/-- The canonical step iterated blindly (progress or not) for `n` passes. -/
def canonIter (s0 : List (String × SiteState)) (c0 : List (String × ChannelState)) :
    Nat → Int → (String → Option Int) → (String → Option Int)
  | 0, _, ρ => ρ
  | n + 1, i, ρ => canonIter s0 c0 n (i + 1) (canonStep s0 c0 ρ i)

/-- Exact model of the relaxation loop for any channel count: canonical
order-free passes strictly below the sentinel, one order-sensitive
sequential pass at `1000`, then the unconditional exit. -/
def fullLoop (s0 : List (String × SiteState)) (c0 : List (String × ChannelState)) :
    Nat → Int → (String → Option Int) → (String → Option Int) × Int
  | 0, i, ρ => (ρ, i)
  | fuel + 1, i, ρ =>
      if i < 1000 then
        if canonProgress s0 c0 ρ i then fullLoop s0 c0 fuel (i + 1) (canonStep s0 c0 ρ i)
        else (ρ, i + 1)
      else
        if (seqPass s0 c0 ρ).2 then ((seqPass s0 c0 ρ).1, i + 1)
        else
          match fuel with
          | 0 => ((seqPass s0 c0 ρ).1, i + 1)
          | _ + 1 => ((seqPass s0 c0 ρ).1, i + 2)

theorem fullLoop_succ (s0 : List (String × SiteState)) (c0 : List (String × ChannelState))
    (fuel : Nat) (i : Int) (ρ : String → Option Int) :
    fullLoop s0 c0 (fuel + 1) i ρ
      = if i < 1000 then
          if canonProgress s0 c0 ρ i then fullLoop s0 c0 fuel (i + 1) (canonStep s0 c0 ρ i)
          else (ρ, i + 1)
        else
          if (seqPass s0 c0 ρ).2 then ((seqPass s0 c0 ρ).1, i + 1)
          else
            match fuel with
            | 0 => ((seqPass s0 c0 ρ).1, i + 1)
            | _ + 1 => ((seqPass s0 c0 ρ).1, i + 2) := rfl

theorem fullLoop_lt (s0 : List (String × SiteState)) (c0 : List (String × ChannelState))
    (fuel : Nat) (i : Int) (ρ : String → Option Int) (hi : i < 1000) :
    fullLoop s0 c0 (fuel + 1) i ρ
      = if canonProgress s0 c0 ρ i then fullLoop s0 c0 fuel (i + 1) (canonStep s0 c0 ρ i)
        else (ρ, i + 1) := by
  rw [fullLoop_succ, if_pos hi]

theorem fullLoop_ge (s0 : List (String × SiteState)) (c0 : List (String × ChannelState))
    (fuel : Nat) (i : Int) (ρ : String → Option Int) (hi : ¬i < 1000) :
    fullLoop s0 c0 (fuel + 1) i ρ
      = if (seqPass s0 c0 ρ).2 then ((seqPass s0 c0 ρ).1, i + 1)
        else
          match fuel with
          | 0 => ((seqPass s0 c0 ρ).1, i + 1)
          | _ + 1 => ((seqPass s0 c0 ρ).1, i + 2) := by
  rw [fullLoop_succ, if_neg hi]

theorem any_congr_pt {α : Type} (l : List α) (p q : α → Bool) (h : ∀ x ∈ l, p x = q x) :
    l.any p = l.any q := by
  induction l with
  | nil => rfl
  | cons x xs ih =>
      rw [List.any_cons, List.any_cons, h x (List.mem_cons_self x xs),
        ih (fun y hy => h y (List.mem_cons_of_mem x hy))]

theorem stepChannel_noFind (i : Int) (nw : Network) (b : Bool) (cid : String)
    (h : lookupC nw.channels cid = none) : stepChannel i (nw, b) cid = (nw, b) := by
  simp only [stepChannel, h]

theorem applyLevels_chanKeys (nw0 : Network) (ρ : String → Option Int) :
    (applyLevels nw0 ρ).channels.map Prod.fst = chanKeys nw0.channels := by
  simp [applyLevels, withLevels, setChanLevels, chanKeys]

/-- One step of the real pass at `1000` on a canonical state is one
`seqStep` on the resolution map. -/
theorem stepChannel_seq (nw0 : Network)
    (hw1 : ∀ c, ∀ s ∈ tgtsOf nw0.channels c, prodOf nw0.sites s = some c)
    (ρ : String → Option Int) (b : Bool) (c : String) :
    stepChannel 1000 (applyLevels nw0 ρ, b) c
      = (applyLevels nw0 (seqStep nw0.sites nw0.channels (ρ, b) c).1,
         (seqStep nw0.sites nw0.channels (ρ, b) c).2) := by
  cases hf : dictFind nw0.channels c with
  | none =>
      have hlook : lookupC (applyLevels nw0 ρ).channels c = none := by
        show dictFind (setChanLevels nw0.channels (canonChan ρ)) c = none
        rw [dictFind_setChanLevels, hf]
        rfl
      rw [stepChannel_noFind 1000 _ b c hlook,
        show seqStep nw0.sites nw0.channels (ρ, b) c = (ρ, b) from by
          simp only [seqStep, hf]]
  | some cst =>
      have hlook : lookupC (applyLevels nw0 ρ).channels c
          = some { cst with level := canonChan ρ c } := by
        show dictFind (setChanLevels nw0.channels (canonChan ρ)) c = _
        rw [dictFind_setChanLevels, hf]
        rfl
      have hsrcs : srcsOf nw0.channels c = cst.source := by rw [srcsOf, hf]
      have htgts : tgtsOf nw0.channels c = cst.target := by rw [tgtsOf, hf]
      have hanyeq : (({ cst with level := canonChan ρ c } : ChannelState).source.any
            (fun s => sLevel (applyLevels nw0 ρ).sites s > 1000))
          = (cst.source.any (fun s => canonSite nw0.sites nw0.channels ρ s > 1000)) := by
        show (cst.source.any (fun s =>
            sLevel (setLevels nw0.sites (canonSite nw0.sites nw0.channels ρ)) s > 1000)) = _
        apply any_congr_pt
        intro s hs
        rw [sLevel_setLevels_src nw0.sites nw0.channels ρ (hsrcs ▸ hs)]
      by_cases hskip : canonChan ρ c < 1000
      · rw [stepChannel_skip 1000 _ b c hlook hskip,
          show seqStep nw0.sites nw0.channels (ρ, b) c = (ρ, b) from by
            simp only [seqStep, hf, if_pos hskip]]
      · by_cases hblock : (cst.source.any
            (fun s => canonSite nw0.sites nw0.channels ρ s > 1000)) = true
        · rw [stepChannel_notReady 1000 _ b c hlook hskip (hanyeq.trans hblock),
            show seqStep nw0.sites nw0.channels (ρ, b) c = (ρ, b) from by
              simp only [seqStep, hf, if_neg hskip, if_pos hblock]]
        · have hbf : (cst.source.any
              (fun s => canonSite nw0.sites nw0.channels ρ s > 1000)) = false := by
            revert hblock
            cases (cst.source.any (fun s => canonSite nw0.sites nw0.channels ρ s > 1000)) <;> simp
          rw [stepChannel_resolve 1000 _ b c hlook hskip (hanyeq.trans hbf)]
          have hseq : seqStep nw0.sites nw0.channels (ρ, b) c
              = ((fun x => if x = c then some 1000 else ρ x), false) := by
            simp only [seqStep, hf, if_neg hskip]
            rw [if_neg (by rw [hbf]; simp)]
          rw [hseq]
          have hstate : ({ applyLevels nw0 ρ with
              channels := updC (applyLevels nw0 ρ).channels c (fun cc => { cc with level := 1000 }),
              sites := promoteTargets 1000 (applyLevels nw0 ρ).sites
                ({ cst with level := canonChan ρ c } : ChannelState).target } : Network)
              = applyLevels nw0 (fun x => if x = c then some 1000 else ρ x) := by
            show ({ nw0 with
                sites := promoteTargets 1000
                  (setLevels nw0.sites (canonSite nw0.sites nw0.channels ρ)) cst.target,
                channels := updC (setChanLevels nw0.channels (canonChan ρ)) c
                  (fun cc => { cc with level := 1000 }) } : Network) = _
            rw [promoteTargets_setLevels, updC_setChanLevels_const]
            apply netParts_congr
            · apply setLevels_ext
              intro k
              have hρ'c : (fun x => if x = c then some (1000 : Int) else ρ x) c = some 1000 := by
                simp
              by_cases hk : k ∈ cst.target
              · have hpk : prodOf nw0.sites k = some c := by
                  apply hw1 c k
                  rw [htgts]
                  exact hk
                have hkt : k ∈ tgtsOf nw0.channels c := by
                  rw [htgts]
                  exact hk
                rw [if_pos hk, canonSite_prod_resolved hpk hρ'c, if_pos hkt]
              · rw [if_neg hk]
                cases hp : prodOf nw0.sites k with
                | none =>
                    rw [canonSite_prod_none hp, canonSite_prod_none hp]
                | some d =>
                    by_cases hdc : d = c
                    · subst hdc
                      have hnt : k ∉ tgtsOf nw0.channels d := by
                        rw [htgts]
                        exact hk
                      have hR : canonSite nw0.sites nw0.channels
                          (fun x => if x = d then some 1000 else ρ x) k = 1000 := by
                        rw [canonSite_prod_resolved hp hρ'c, if_neg hnt]
                      have hL : canonSite nw0.sites nw0.channels ρ k = 1000 := by
                        cases hρd : ρ d with
                        | none => rw [canonSite_prod_unresolved hp hρd]
                        | some j => rw [canonSite_prod_resolved hp hρd, if_neg hnt]
                      rw [hL, hR]
                    · have hρ'd : (fun x => if x = c then some (1000 : Int) else ρ x) d
                          = ρ d := by
                        simp [hdc]
                      cases hρd : ρ d with
                      | none =>
                          rw [canonSite_prod_unresolved hp hρd,
                            canonSite_prod_unresolved hp (hρ'd.trans hρd)]
                      | some j =>
                          rw [canonSite_prod_resolved hp hρd,
                            canonSite_prod_resolved hp (hρ'd.trans hρd)]
            · apply setChanLevels_ext
              intro x
              by_cases hx : x = c
              · subst hx
                simp [canonChan]
              · simp [canonChan, hx]
          rw [hstate]

/-- A whole pass at `1000` is the sequential fold on the resolution map. -/
theorem relaxFold_seq (nw0 : Network)
    (hw1 : ∀ c, ∀ s ∈ tgtsOf nw0.channels c, prodOf nw0.sites s = some c) :
    ∀ (L : List String) (ρ : String → Option Int) (b : Bool),
      L.foldl (stepChannel 1000) (applyLevels nw0 ρ, b)
        = (applyLevels nw0 (seqFold nw0.sites nw0.channels L (ρ, b)).1,
           (seqFold nw0.sites nw0.channels L (ρ, b)).2) := by
  intro L
  induction L with
  | nil => intro ρ b; rfl
  | cons d L' ih =>
      intro ρ b
      rw [List.foldl_cons, stepChannel_seq nw0 hw1 ρ b d]
      exact ih (seqStep nw0.sites nw0.channels (ρ, b) d).1
        (seqStep nw0.sites nw0.channels (ρ, b) d).2

theorem relaxPass_seq (nw0 : Network)
    (hw1 : ∀ c, ∀ s ∈ tgtsOf nw0.channels c, prodOf nw0.sites s = some c)
    (ρ : String → Option Int) :
    relaxPass 1000 (applyLevels nw0 ρ)
      = (applyLevels nw0 (seqPass nw0.sites nw0.channels ρ).1,
         (seqPass nw0.sites nw0.channels ρ).2) := by
  rw [relaxPass, applyLevels_chanKeys]
  exact relaxFold_seq nw0 hw1 (chanKeys nw0.channels) ρ true

/-- A pass at a step strictly above every channel level does nothing. -/
theorem stale_fold (nw0 : Network) (ρ : String → Option Int) (i : Int)
    (h : ∀ c, c ∈ chanKeys nw0.channels → canonChan ρ c < i) :
    ∀ (L : List String) (b : Bool),
      L.foldl (stepChannel i) (applyLevels nw0 ρ, b) = (applyLevels nw0 ρ, b) := by
  intro L
  induction L with
  | nil => intro b; rfl
  | cons c L' ih =>
      intro b
      rw [List.foldl_cons]
      cases hf : dictFind nw0.channels c with
      | none =>
          have hlook : lookupC (applyLevels nw0 ρ).channels c = none := by
            show dictFind (setChanLevels nw0.channels (canonChan ρ)) c = none
            rw [dictFind_setChanLevels, hf]
            rfl
          rw [stepChannel_noFind i _ b c hlook]
          exact ih b
      | some cst =>
          have hmem : c ∈ chanKeys nw0.channels :=
            List.mem_map.mpr ⟨(c, cst), mem_of_dictFind_eq_some hf, rfl⟩
          have hlook : lookupC (applyLevels nw0 ρ).channels c
              = some { cst with level := canonChan ρ c } := by
            show dictFind (setChanLevels nw0.channels (canonChan ρ)) c = _
            rw [dictFind_setChanLevels, hf]
            rfl
          rw [stepChannel_skip i _ b c hlook (h c hmem)]
          exact ih b

theorem relaxPass_stale (nw0 : Network) (ρ : String → Option Int) (i : Int)
    (h : ∀ c, c ∈ chanKeys nw0.channels → canonChan ρ c < i) :
    relaxPass i (applyLevels nw0 ρ) = (applyLevels nw0 ρ, true) := by
  rw [relaxPass, applyLevels_chanKeys]
  exact stale_fold nw0 ρ i h (chanKeys nw0.channels) true

/-- Either a sequential step does nothing, or it resolves its channel at
exactly `1000`. -/
theorem seqStep_cases (s0 : List (String × SiteState)) (c0 : List (String × ChannelState))
    (acc : (String → Option Int) × Bool) (d : String) :
    seqStep s0 c0 acc d = acc
      ∨ seqStep s0 c0 acc d = ((fun x => if x = d then some 1000 else acc.1 x), false) := by
  cases hf : dictFind c0 d with
  | none =>
      rw [show seqStep s0 c0 acc d = acc from by simp only [seqStep, hf]]
      exact Or.inl rfl
  | some cst =>
      by_cases h1 : canonChan acc.1 d < 1000
      · rw [show seqStep s0 c0 acc d = acc from by simp only [seqStep, hf, if_pos h1]]
        exact Or.inl rfl
      · by_cases h2 : (cst.source.any (fun s => canonSite s0 c0 acc.1 s > 1000)) = true
        · rw [show seqStep s0 c0 acc d = acc from by
            simp only [seqStep, hf, if_neg h1, if_pos h2]]
          exact Or.inl rfl
        · rw [show seqStep s0 c0 acc d
              = ((fun x => if x = d then some 1000 else acc.1 x), false) from by
            simp only [seqStep, hf, if_neg h1]
            rw [if_neg h2]]
          exact Or.inr rfl

/-- The sequential pass leaves each entry of the map alone or writes
exactly `some 1000`. -/
theorem seqFold_none_or (s0 : List (String × SiteState)) (c0 : List (String × ChannelState)) :
    ∀ (L : List String) (acc : (String → Option Int) × Bool) (c : String),
      (seqFold s0 c0 L acc).1 c = acc.1 c ∨ (seqFold s0 c0 L acc).1 c = some 1000 := by
  intro L
  induction L with
  | nil => intro acc c; exact Or.inl rfl
  | cons d L' ih =>
      intro acc c
      show (seqFold s0 c0 L' (seqStep s0 c0 acc d)).1 c = acc.1 c
        ∨ (seqFold s0 c0 L' (seqStep s0 c0 acc d)).1 c = some 1000
      rcases ih (seqStep s0 c0 acc d) c with h | h
      · rcases seqStep_cases s0 c0 acc d with hs | hs
        · exact Or.inl (h.trans (by rw [hs]))
        · by_cases hc : c = d
          · subst hc
            refine Or.inr (h.trans ?_)
            rw [hs]
            simp
          · exact Or.inl (h.trans (by rw [hs]; simp [hc]))
      · exact Or.inr h

theorem canonStep_values {s0 : List (String × SiteState)} {c0 : List (String × ChannelState)}
    {ρ : String → Option Int} {i : Int} (hρ : ∀ c j, ρ c = some j → j < i) :
    ∀ c j, canonStep s0 c0 ρ i c = some j → j < i + 1 := by
  intro c j hcj
  rw [canonStep, stepRes] at hcj
  by_cases hcond : c ∈ chanKeys c0 ∧ resolvesNow s0 c0 ρ i c = true
  · rw [if_pos hcond] at hcj
    cases hcj
    omega
  · rw [if_neg hcond] at hcj
    have := hρ c j hcj
    omega

theorem canonStep_keep {s0 : List (String × SiteState)} {c0 : List (String × ChannelState)}
    (ρ : String → Option Int) (i : Int) {c : String} {j : Int} (h : ρ c = some j) :
    canonStep s0 c0 ρ i c = some j := by
  rw [canonStep, stepRes, if_neg]
  · exact h
  · rintro ⟨_, hr⟩
    rw [resolvesNow, h] at hr
    simp at hr

theorem canonIter_keep (s0 : List (String × SiteState)) (c0 : List (String × ChannelState)) :
    ∀ (n : Nat) (i : Int) (ρ : String → Option Int) {c : String} {j : Int},
      ρ c = some j → canonIter s0 c0 n i ρ c = some j := by
  intro n
  induction n with
  | zero => intro i ρ c j h; exact h
  | succ n ih =>
      intro i ρ c j h
      exact ih (i + 1) (canonStep s0 c0 ρ i) (canonStep_keep ρ i h)

/-- Main loop simulation, valid for every channel count. -/
theorem relaxLoop_fullLoop (nw0 : Network) (hndC : (chanKeys nw0.channels).Nodup)
    (hw1 : ∀ c, ∀ s ∈ tgtsOf nw0.channels c, prodOf nw0.sites s = some c) :
    ∀ (fuel : Nat) (i : Int) (ρ : String → Option Int),
      i ≤ 1000 → (∀ c j, ρ c = some j → j < i) →
      relaxLoop fuel i (applyLevels nw0 ρ)
        = (applyLevels nw0 (fullLoop nw0.sites nw0.channels fuel i ρ).1,
            (fullLoop nw0.sites nw0.channels fuel i ρ).2) := by
  intro fuel
  induction fuel with
  | zero => intro i ρ h1 hρ; rfl
  | succ fuel ih =>
      intro i ρ h1 hρ
      by_cases hi : i < 1000
      · rw [show relaxLoop (fuel + 1) i (applyLevels nw0 ρ)
            = (let r := relaxPass i (applyLevels nw0 ρ)
               if r.2 then (r.1, i + 1) else relaxLoop fuel (i + 1) r.1) from rfl]
        rw [relaxPass_applyLevels nw0 hndC hw1 ρ i hi hρ]
        rw [fullLoop_lt nw0.sites nw0.channels fuel i ρ hi]
        cases hprog : canonProgress nw0.sites nw0.channels ρ i with
        | false =>
            rw [canonStep_of_no_progress hprog]
            simp
        | true =>
            have hρ' : ∀ c j, canonStep nw0.sites nw0.channels ρ i c = some j → j < i + 1 :=
              canonStep_values hρ
            simp only [if_true, Bool.not_true, if_false]
            rw [ih (i + 1) (canonStep nw0.sites nw0.channels ρ i) (by omega) hρ']
            simp
      · have hieq : i = 1000 := by omega
        subst hieq
        cases fuel with
        | zero =>
            rw [show relaxLoop (0 + 1) 1000 (applyLevels nw0 ρ)
                = (let r := relaxPass 1000 (applyLevels nw0 ρ)
                   if r.2 then (r.1, 1000 + 1) else relaxLoop 0 (1000 + 1) r.1) from rfl]
            rw [relaxPass_seq nw0 hw1 ρ, fullLoop_ge nw0.sites nw0.channels 0 1000 ρ (by omega)]
            cases hdone : (seqPass nw0.sites nw0.channels ρ).2 with
            | true => simp
            | false =>
                simp only [Bool.false_eq_true, if_false]
                rfl
        | succ f =>
            rw [show relaxLoop (f + 1 + 1) 1000 (applyLevels nw0 ρ)
                = (let r := relaxPass 1000 (applyLevels nw0 ρ)
                   if r.2 then (r.1, 1000 + 1) else relaxLoop (f + 1) (1000 + 1) r.1) from rfl]
            rw [relaxPass_seq nw0 hw1 ρ,
              fullLoop_ge nw0.sites nw0.channels (f + 1) 1000 ρ (by omega)]
            cases hdone : (seqPass nw0.sites nw0.channels ρ).2 with
            | true => simp
            | false =>
                simp only [Bool.false_eq_true, if_false]
                have hvals : ∀ c, c ∈ chanKeys nw0.channels →
                    canonChan (seqPass nw0.sites nw0.channels ρ).1 c < 1000 + 1 := by
                  intro c _
                  rcases seqFold_none_or nw0.sites nw0.channels (chanKeys nw0.channels)
                      (ρ, true) c with h | h
                  · have h' : (seqPass nw0.sites nw0.channels ρ).1 c = ρ c := h
                    rw [canonChan, h']
                    cases hc : ρ c with
                    | none =>
                        show (1000 : Int) < 1000 + 1
                        omega
                    | some j =>
                        show j < 1000 + 1
                        have := hρ c j hc
                        omega
                  · have h' : (seqPass nw0.sites nw0.channels ρ).1 c = some 1000 := h
                    rw [canonChan, h']
                    show (1000 : Int) < 1000 + 1
                    omega
                rw [show relaxLoop (f + 1) (1000 + 1)
                      (applyLevels nw0 (seqPass nw0.sites nw0.channels ρ).1)
                    = (let r := relaxPass (1000 + 1)
                         (applyLevels nw0 (seqPass nw0.sites nw0.channels ρ).1)
                       if r.2 then (r.1, 1000 + 1 + 1)
                       else relaxLoop f (1000 + 1 + 1) r.1) from rfl]
                rw [relaxPass_stale nw0 (seqPass nw0.sites nw0.channels ρ).1 (1000 + 1) hvals]
                simp

/-! ### Full characterization of `computeOrder` for every channel count -/

/-- The resolution map and final index `computeOrder` realizes on `nw`,
with no restriction on the channel count. -/
def fullFinal (nw : Network) : (String → Option Int) × Int :=
  fullLoop nw.sites nw.channels (nw.channels.length + 10) 0 (fun _ => none)

/-- The site dict as `computeOrder` leaves it. -/
def fullSitesOf (nw : Network) : List (String × SiteState) :=
  setLevels nw.sites (canonSite nw.sites nw.channels (fullFinal nw).1)

/-- The channel dict as `computeOrder` leaves it: levels from the full
model, sorted ascending by level, source lists sorted by site level. -/
def fullChansOf (nw : Network) : List (String × ChannelState) :=
  (sortChansByLevel (setChanLevels nw.channels (canonChan (fullFinal nw).1))).map
    (fun p => (p.1, { p.2 with source := sortSrcByLevel (fullSitesOf nw) p.2.source }))

theorem computeOrder_full (nw : Network) (hWF : WFNet nw) :
    computeOrder nw =
      { nw := { nw with sites := fullSitesOf nw, channels := fullChansOf nw },
        finalI := (fullFinal nw).2,
        failedStructure := decide ((fullFinal nw).2 > (fullChansOf nw).length + 1),
        orphanedSites := ((fullSitesOf nw).filter (fun p => p.2.level = -1)).map Prod.fst,
        unreachableChannels :=
          ((fullChansOf nw).filter (fun p => p.2.level = 1000)).map Prod.fst } := by
  have hseed := seedPhase_reset nw hWF.ndS hWF.ndC
  have hρ0 : ∀ (c : String) (j : Int), (fun _ => (none : Option Int)) c = some j → j < 0 := by
    intro c j h
    exact absurd h (by simp)
  have hloop := relaxLoop_fullLoop nw hWF.ndC hWF.w1Fun
    (nw.channels.length + 10) 0 (fun _ => none) (by omega) hρ0
  simp only [computeOrder]
  rw [hseed, applyLevels_channels_length, hloop]
  simp only [sortAllSources, applyLevels, withLevels, fullFinal, fullSitesOf, fullChansOf]

theorem dictFind_fullChans (nw : Network) (hndC : (chanKeys nw.channels).Nodup)
    (c : String) :
    dictFind (fullChansOf nw) c
      = (dictFind nw.channels c).map
          (fun cst => { cst with
            source := sortSrcByLevel (fullSitesOf nw) cst.source,
            level := canonChan (fullFinal nw).1 c }) := by
  have hY : dictFind (setChanLevels nw.channels (canonChan (fullFinal nw).1)) c
      = (dictFind nw.channels c).map
          (fun cst => { cst with level := canonChan (fullFinal nw).1 c }) :=
    dictFind_setChanLevels nw.channels _ c
  have hperm := sortChansByLevel_perm (setChanLevels nw.channels (canonChan (fullFinal nw).1))
  have hndY : ((setChanLevels nw.channels (canonChan (fullFinal nw).1)).map Prod.fst).Nodup := by
    have := chanKeys_setChanLevels nw.channels (canonChan (fullFinal nw).1)
    rw [chanKeys] at this
    rw [this]
    exact hndC
  have hndsorted : ((sortChansByLevel (setChanLevels nw.channels
      (canonChan (fullFinal nw).1))).map Prod.fst).Nodup :=
    ((hperm.map Prod.fst).nodup_iff).mpr hndY
  rw [fullChansOf,
    dictFind_map (sortChansByLevel (setChanLevels nw.channels (canonChan (fullFinal nw).1)))
      (fun _ cst => { cst with source := sortSrcByLevel (fullSitesOf nw) cst.source }) c,
    dictFind_perm hperm hndsorted c, hY, Option.map_map]
  cases dictFind nw.channels c <;> rfl

theorem computeOrder_full_siteLevelOf (nw : Network) (hWF : WFNet nw) (s : String) :
    siteLevelOf (computeOrder nw).nw s
      = (dictFind nw.sites s).map
          (fun _ => canonSite nw.sites nw.channels (fullFinal nw).1 s) := by
  rw [computeOrder_full nw hWF]
  show (dictFind (fullSitesOf nw) s).map (fun st => st.level) = _
  rw [fullSitesOf, dictFind_setLevels]
  cases dictFind nw.sites s <;> rfl

theorem computeOrder_full_chanLevelOf (nw : Network) (hWF : WFNet nw) (c : String) :
    chanLevelOf (computeOrder nw).nw c
      = (dictFind nw.channels c).map (fun _ => canonChan (fullFinal nw).1 c) := by
  rw [computeOrder_full nw hWF]
  show (dictFind (fullChansOf nw) c).map (fun cst => cst.level) = _
  rw [dictFind_fullChans nw hWF.ndC c]
  cases dictFind nw.channels c <;> rfl

theorem prodOf_fullSites (nw : Network) (s : String) :
    prodOf (fullSitesOf nw) s = prodOf nw.sites s := by
  rw [prodOf, prodOf, fullSitesOf, dictFind_setLevels]
  cases dictFind nw.sites s <;> rfl

theorem tgtsOf_fullChans (nw : Network) (hndC : (chanKeys nw.channels).Nodup)
    (c : String) : tgtsOf (fullChansOf nw) c = tgtsOf nw.channels c := by
  rw [tgtsOf, tgtsOf, dictFind_fullChans nw hndC c]
  cases dictFind nw.channels c <;> rfl

theorem srcsOf_fullChans_mem (nw : Network) (hndC : (chanKeys nw.channels).Nodup)
    (c x : String) : x ∈ srcsOf (fullChansOf nw) c ↔ x ∈ srcsOf nw.channels c := by
  rw [srcsOf, srcsOf, dictFind_fullChans nw hndC c]
  cases h : dictFind nw.channels c with
  | none => exact Iff.rfl
  | some cst =>
      show x ∈ sortSrcByLevel (fullSitesOf nw) cst.source ↔ x ∈ cst.source
      exact (sortSrcByLevel_perm (fullSitesOf nw) cst.source).mem_iff

theorem chanKeys_fullChans_perm (nw : Network) :
    (chanKeys (fullChansOf nw)).Perm (chanKeys nw.channels) := by
  have h1 : chanKeys (fullChansOf nw)
      = chanKeys (sortChansByLevel (setChanLevels nw.channels
          (canonChan (fullFinal nw).1))) := by
    rw [fullChansOf, chanKeys, chanKeys, List.map_map]
    exact List.map_congr_left (fun p _ => rfl)
  rw [h1]
  have h2 := (sortChansByLevel_perm (setChanLevels nw.channels
    (canonChan (fullFinal nw).1))).map Prod.fst
  have h3 : (setChanLevels nw.channels (canonChan (fullFinal nw).1)).map Prod.fst
      = chanKeys nw.channels := chanKeys_setChanLevels nw.channels _
  exact h3 ▸ h2

theorem fullChans_length (nw : Network) :
    (fullChansOf nw).length = nw.channels.length := by
  rw [fullChansOf, List.length_map,
    (sortChansByLevel_perm (setChanLevels nw.channels (canonChan (fullFinal nw).1))).length_eq]
  simp [setChanLevels]

theorem isSourceAnywhere_fullChans (nw : Network)
    (hndC : (chanKeys nw.channels).Nodup) (s : String) :
    isSourceAnywhere (fullChansOf nw) s = isSourceAnywhere nw.channels s := by
  apply bool_eq_of_true_iff
  have hnd1 : (chanKeys (fullChansOf nw)).Nodup :=
    ((chanKeys_fullChans_perm nw).nodup_iff).mpr hndC
  rw [isSourceAnywhere_iff hnd1, isSourceAnywhere_iff hndC]
  constructor
  · rintro ⟨c, hc, hs⟩
    exact ⟨c, (chanKeys_fullChans_perm nw).mem_iff.mp hc,
      (srcsOf_fullChans_mem nw hndC c s).mp hs⟩
  · rintro ⟨c, hc, hs⟩
    exact ⟨c, (chanKeys_fullChans_perm nw).mem_iff.mpr hc,
      (srcsOf_fullChans_mem nw hndC c s).mpr hs⟩

theorem WFNet_computeOrder_full (nw : Network) (hWF : WFNet nw) :
    WFNet (computeOrder nw).nw := by
  rw [computeOrder_full nw hWF]
  constructor
  · show (siteKeys (fullSitesOf nw)).Nodup
    rw [fullSitesOf, siteKeys_setLevels]
    exact hWF.ndS
  · show (chanKeys (fullChansOf nw)).Nodup
    exact ((chanKeys_fullChans_perm nw).nodup_iff).mpr hWF.ndC
  · show ∀ p ∈ fullChansOf nw, ∀ s ∈ p.2.target, prodOf (fullSitesOf nw) s = some p.1
    intro p hp s hs
    rw [prodOf_fullSites]
    rw [fullChansOf] at hp
    rcases List.mem_map.mp hp with ⟨q, hq, rfl⟩
    have hqY := (sortChansByLevel_perm _).mem_iff.mp hq
    rw [setChanLevels] at hqY
    rcases List.mem_map.mp hqY with ⟨r, hr, rfl⟩
    exact hWF.w1 r hr s hs

theorem canonIter_zero (s0 : List (String × SiteState)) (c0 : List (String × ChannelState))
    (i : Int) (ρ : String → Option Int) : canonIter s0 c0 0 i ρ = ρ := rfl

/-- Every level the loop model ever assigns is at most `1000`. -/
theorem fullLoop_values (s0 : List (String × SiteState)) (c0 : List (String × ChannelState)) :
    ∀ (fuel : Nat) (i : Int) (ρ : String → Option Int), i ≤ 1000 →
      (∀ c j, ρ c = some j → j < i) →
      ∀ c j, (fullLoop s0 c0 fuel i ρ).1 c = some j → j ≤ 1000 := by
  intro fuel
  induction fuel with
  | zero =>
      intro i ρ h1 hρ c j h
      have := hρ c j h
      omega
  | succ fuel ih =>
      intro i ρ h1 hρ c j h
      by_cases hi : i < 1000
      · rw [fullLoop_lt s0 c0 fuel i ρ hi] at h
        by_cases hprog : canonProgress s0 c0 ρ i = true
        · rw [if_pos hprog] at h
          exact ih (i + 1) (canonStep s0 c0 ρ i) (by omega) (canonStep_values hρ) c j h
        · rw [if_neg hprog] at h
          have := hρ c j h
          omega
      · have hieq : i = 1000 := by omega
        subst hieq
        rw [fullLoop_ge s0 c0 fuel 1000 ρ (by omega)] at h
        have h1' : (seqPass s0 c0 ρ).1 c = some j := by
          by_cases hdone : (seqPass s0 c0 ρ).2 = true
          · rw [if_pos hdone] at h
            exact h
          · rw [if_neg hdone] at h
            cases fuel with
            | zero => exact h
            | succ f => exact h
        have hor : (seqPass s0 c0 ρ).1 c = ρ c ∨ (seqPass s0 c0 ρ).1 c = some 1000 :=
          seqFold_none_or s0 c0 (chanKeys c0) (ρ, true) c
        rcases hor with h2 | h2
        · have h3 : ρ c = some j := h2.symm.trans h1'
          have := hρ c j h3
          omega
        · rw [h1'] at h2
          have := Option.some.inj h2
          omega

/-- A level below `1000` in the final map already appears in the blind
canonical iteration down to the sentinel. -/
theorem fullLoop_low_canonIter (s0 : List (String × SiteState))
    (c0 : List (String × ChannelState)) :
    ∀ (fuel : Nat) (i : Int) (ρ : String → Option Int), i ≤ 1000 →
      ∀ c j, (fullLoop s0 c0 fuel i ρ).1 c = some j → j < 1000 →
        canonIter s0 c0 (1000 - i).toNat i ρ c = some j := by
  intro fuel
  induction fuel with
  | zero =>
      intro i ρ h1 c j h hj
      exact canonIter_keep s0 c0 _ i ρ h
  | succ fuel ih =>
      intro i ρ h1 c j h hj
      by_cases hi : i < 1000
      · rw [fullLoop_lt s0 c0 fuel i ρ hi] at h
        by_cases hprog : canonProgress s0 c0 ρ i = true
        · rw [if_pos hprog] at h
          have hres := ih (i + 1) (canonStep s0 c0 ρ i) (by omega) c j h hj
          rw [show (1000 - i).toNat = (1000 - (i + 1)).toNat + 1 from by omega]
          exact hres
        · rw [if_neg hprog] at h
          exact canonIter_keep s0 c0 _ i ρ h
      · have hieq : i = 1000 := by omega
        subst hieq
        rw [fullLoop_ge s0 c0 fuel 1000 ρ (by omega)] at h
        have h1' : (seqPass s0 c0 ρ).1 c = some j := by
          by_cases hdone : (seqPass s0 c0 ρ).2 = true
          · rw [if_pos hdone] at h
            exact h
          · rw [if_neg hdone] at h
            cases fuel with
            | zero => exact h
            | succ f => exact h
        have h3 : ρ c = some j := by
          have hor : (seqPass s0 c0 ρ).1 c = ρ c ∨ (seqPass s0 c0 ρ).1 c = some 1000 :=
            seqFold_none_or s0 c0 (chanKeys c0) (ρ, true) c
          rcases hor with h2 | h2
          · exact h2.symm.trans h1'
          · rw [h1'] at h2
            have := Option.some.inj h2
            omega
        rw [show ((1000 : Int) - 1000).toNat = 0 from by omega, canonIter_zero]
        exact h3

/-! ### The stable channel sort preserves the top level class in order -/

theorem filter_insertChan_neg (q : String → Bool) (x : String × ChannelState)
    (hx : q x.1 = false) :
    ∀ (l : List (String × ChannelState)),
      (insertChanByLevel x l).filter (fun p => q p.1) = l.filter (fun p => q p.1) := by
  intro l
  induction l with
  | nil => simp [insertChanByLevel, List.filter, hx]
  | cons y l' ih =>
      rw [insertChanByLevel]
      by_cases h : y.2.level < x.2.level
      · rw [if_pos h, List.filter_cons, List.filter_cons]
        cases hq : q y.1 <;> simp [hq, ih]
      · rw [if_neg h, List.filter_cons, hx]
        simp

theorem filter_insertChan_pos (q : String → Bool) (x : String × ChannelState)
    (hx : q x.1 = true) (hlev : x.2.level = 1000) :
    ∀ (l : List (String × ChannelState)),
      (∀ p ∈ l, p.2.level ≤ 1000) → (∀ p ∈ l, q p.1 = true → p.2.level = 1000) →
      (insertChanByLevel x l).filter (fun p => q p.1)
        = x :: l.filter (fun p => q p.1) := by
  intro l
  induction l with
  | nil => simp [insertChanByLevel, List.filter, hx]
  | cons y l' ih =>
      intro hle hq1
      rw [insertChanByLevel]
      by_cases h : y.2.level < x.2.level
      · have hqy : q y.1 = false := by
          cases hqy : q y.1
          · rfl
          · have := hq1 y (List.mem_cons_self y l') hqy
            rw [hlev] at h
            omega
        rw [if_pos h, List.filter_cons, hqy]
        simp only [Bool.false_eq_true, if_false]
        rw [ih (fun p hp => hle p (List.mem_cons_of_mem y hp))
          (fun p hp => hq1 p (List.mem_cons_of_mem y hp)), List.filter_cons, hqy]
        simp
      · rw [if_neg h, List.filter_cons, hx]
        simp

theorem filter_sortChans (q : String → Bool) :
    ∀ (M : List (String × ChannelState)),
      (∀ p ∈ M, p.2.level ≤ 1000) → (∀ p ∈ M, q p.1 = true → p.2.level = 1000) →
      (sortChansByLevel M).filter (fun p => q p.1) = M.filter (fun p => q p.1) := by
  intro M
  induction M with
  | nil => intro _ _; rfl
  | cons x M' ih =>
      intro hle hq1
      have hle' : ∀ p ∈ sortChansByLevel M', p.2.level ≤ 1000 := by
        intro p hp
        exact hle p (List.mem_cons_of_mem x ((sortChansByLevel_perm M').mem_iff.mp hp))
      have hq1' : ∀ p ∈ sortChansByLevel M', q p.1 = true → p.2.level = 1000 := by
        intro p hp
        exact hq1 p (List.mem_cons_of_mem x ((sortChansByLevel_perm M').mem_iff.mp hp))
      show (insertChanByLevel x (sortChansByLevel M')).filter (fun p => q p.1) = _
      cases hqx : q x.1 with
      | false =>
          rw [filter_insertChan_neg q x hqx (sortChansByLevel M'),
            ih (fun p hp => hle p (List.mem_cons_of_mem x hp))
              (fun p hp => hq1 p (List.mem_cons_of_mem x hp)),
            List.filter_cons, hqx]
          simp
      | true =>
          rw [filter_insertChan_pos q x hqx (hq1 x (List.mem_cons_self x M') hqx)
              (sortChansByLevel M') hle' hq1',
            ih (fun p hp => hle p (List.mem_cons_of_mem x hp))
              (fun p hp => hq1 p (List.mem_cons_of_mem x hp)),
            List.filter_cons, hqx]
          simp

theorem filter_map_fst {β : Type} (M : List (String × β)) (q : String → Bool) :
    (M.map Prod.fst).filter q = (M.filter (fun p => q p.1)).map Prod.fst := by
  induction M with
  | nil => rfl
  | cons p M' ih =>
      rw [List.map_cons, List.filter_cons, List.filter_cons]
      cases hq : q p.1 <;> simp [hq, ih]

theorem filter_fst_setChanLevels (m : List (String × ChannelState)) (G : String → Int)
    (q : String → Bool) :
    ((setChanLevels m G).filter (fun p => q p.1)).map Prod.fst
      = (m.filter (fun p => q p.1)).map Prod.fst := by
  induction m with
  | nil => rfl
  | cons p m' ih =>
      show (((p.1, { p.2 with level := G p.1 }) :: setChanLevels m' G).filter
        (fun r => q r.1)).map Prod.fst = _
      rw [List.filter_cons, List.filter_cons]
      cases hq : q p.1 with
      | false =>
          simp only [hq, Bool.false_eq_true, if_false]
          exact ih
      | true =>
          simp only [hq, if_true, List.map_cons]
          rw [ih]

/-! ### The sequential pass depends only on the graph structure and the
order of the still-pending channels -/

theorem seqStep_ext {s0 s0' : List (String × SiteState)}
    {c0 c0' : List (String × ChannelState)}
    (hprod : ∀ s, prodOf s0' s = prodOf s0 s)
    (htgt : ∀ c, tgtsOf c0' c = tgtsOf c0 c)
    (hsrcany : ∀ s, isSourceAnywhere c0' s = isSourceAnywhere c0 s)
    (hsrc : ∀ c x, x ∈ srcsOf c0' c ↔ x ∈ srcsOf c0 c)
    (hids : ∀ x, x ∈ chanKeys c0' ↔ x ∈ chanKeys c0)
    (acc : (String → Option Int) × Bool) (c : String) :
    seqStep s0' c0' acc c = seqStep s0 c0 acc c := by
  cases hf : dictFind c0 c with
  | none =>
      have hf' : dictFind c0' c = none := by
        rw [dictFind_eq_none_iff]
        intro hmem
        exact (dictFind_eq_none_iff.mp hf) ((hids c).mp hmem)
      simp only [seqStep, hf, hf']
  | some cst =>
      obtain ⟨cst', hf'⟩ : ∃ cst', dictFind c0' c = some cst' := by
        cases hg : dictFind c0' c with
        | none =>
            have hmem : c ∈ chanKeys c0 :=
              List.mem_map.mpr ⟨(c, cst), mem_of_dictFind_eq_some hf, rfl⟩
            exact absurd ((hids c).mpr hmem) (dictFind_eq_none_iff.mp hg)
        | some cst' => exact ⟨cst', rfl⟩
      have hany : (cst'.source.any (fun s => canonSite s0' c0' acc.1 s > 1000))
          = (cst.source.any (fun s => canonSite s0 c0 acc.1 s > 1000)) := by
        have h1 : (cst'.source.any (fun s => canonSite s0' c0' acc.1 s > 1000))
            = (cst'.source.any (fun s => canonSite s0 c0 acc.1 s > 1000)) :=
          any_congr_pt _ _ _ (fun s _ => by rw [canonSite_ext hprod htgt hsrcany])
        have hmm : ∀ x, x ∈ cst'.source ↔ x ∈ cst.source := by
          intro x
          have hx := hsrc c x
          rw [srcsOf, srcsOf, hf, hf'] at hx
          exact hx
        rw [h1]
        exact any_congr_mem hmm _
      simp only [seqStep, hf, hf', hany]

theorem seqFold_ext {s0 s0' : List (String × SiteState)}
    {c0 c0' : List (String × ChannelState)}
    (hprod : ∀ s, prodOf s0' s = prodOf s0 s)
    (htgt : ∀ c, tgtsOf c0' c = tgtsOf c0 c)
    (hsrcany : ∀ s, isSourceAnywhere c0' s = isSourceAnywhere c0 s)
    (hsrc : ∀ c x, x ∈ srcsOf c0' c ↔ x ∈ srcsOf c0 c)
    (hids : ∀ x, x ∈ chanKeys c0' ↔ x ∈ chanKeys c0) :
    ∀ (L : List String) (acc : (String → Option Int) × Bool),
      seqFold s0' c0' L acc = seqFold s0 c0 L acc := by
  intro L
  induction L with
  | nil => intro acc; rfl
  | cons d L' ih =>
      intro acc
      show seqFold s0' c0' L' (seqStep s0' c0' acc d) = seqFold s0 c0 L' (seqStep s0 c0 acc d)
      rw [seqStep_ext hprod htgt hsrcany hsrc hids acc d]
      exact ih (seqStep s0 c0 acc d)

/-- Channels already resolved below `1000` at the start of the pass are
no-ops and can be dropped from the visiting order. -/
theorem seqFold_drop (s0 : List (String × SiteState)) (c0 : List (String × ChannelState)) :
    ∀ (L : List String) (σ ρ : String → Option Int) (b : Bool),
      (∀ c, canonChan σ c < 1000 → ρ c = σ c) →
      seqFold s0 c0 L (ρ, b)
        = seqFold s0 c0 (L.filter (fun c => !(decide (canonChan σ c < 1000)))) (ρ, b) := by
  intro L
  induction L with
  | nil => intro σ ρ b hag; rfl
  | cons d L' ih =>
      intro σ ρ b hag
      by_cases hd : canonChan σ d < 1000
      · have hstep : seqStep s0 c0 (ρ, b) d = (ρ, b) := by
          have hlt : canonChan ρ d < 1000 := by
            rw [show canonChan ρ d = canonChan σ d from by rw [canonChan, canonChan, hag d hd]]
            exact hd
          cases hf : dictFind c0 d with
          | none => simp only [seqStep, hf]
          | some cst => simp only [seqStep, hf, if_pos hlt]
        rw [show (d :: L').filter (fun c => !(decide (canonChan σ c < 1000)))
            = L'.filter (fun c => !(decide (canonChan σ c < 1000))) from by
          rw [List.filter_cons]
          simp [hd]]
        show seqFold s0 c0 L' (seqStep s0 c0 (ρ, b) d) = _
        rw [hstep]
        exact ih σ ρ b hag
      · rw [show (d :: L').filter (fun c => !(decide (canonChan σ c < 1000)))
            = d :: L'.filter (fun c => !(decide (canonChan σ c < 1000))) from by
          rw [List.filter_cons]
          simp [hd]]
        show seqFold s0 c0 L' (seqStep s0 c0 (ρ, b) d)
          = seqFold s0 c0 (L'.filter (fun c => !(decide (canonChan σ c < 1000))))
              (seqStep s0 c0 (ρ, b) d)
        have hag' : ∀ c, canonChan σ c < 1000 → (seqStep s0 c0 (ρ, b) d).1 c = σ c := by
          intro c hc
          rcases seqStep_cases s0 c0 (ρ, b) d with hs | hs
          · rw [hs]
            exact hag c hc
          · rw [hs]
            by_cases hcd : c = d
            · subst hcd
              exact absurd hc hd
            · simp only [if_neg hcd]
              exact hag c hc
        have := ih σ (seqStep s0 c0 (ρ, b) d).1 (seqStep s0 c0 (ρ, b) d).2 hag'
        exact this

/-- Two structures with the same graph, whose channel orders agree on the
channels still pending when the sequential pass starts, run the pass to the
same result. -/
theorem seqPass_pend {s0 s0' : List (String × SiteState)}
    {c0 c0' : List (String × ChannelState)}
    (hprod : ∀ s, prodOf s0' s = prodOf s0 s)
    (htgt : ∀ c, tgtsOf c0' c = tgtsOf c0 c)
    (hsrcany : ∀ s, isSourceAnywhere c0' s = isSourceAnywhere c0 s)
    (hsrc : ∀ c x, x ∈ srcsOf c0' c ↔ x ∈ srcsOf c0 c)
    (hids : ∀ x, x ∈ chanKeys c0' ↔ x ∈ chanKeys c0)
    (ρ : String → Option Int)
    (hpend : (chanKeys c0').filter (fun c => !(decide (canonChan ρ c < 1000)))
        = (chanKeys c0).filter (fun c => !(decide (canonChan ρ c < 1000)))) :
    seqPass s0' c0' ρ = seqPass s0 c0 ρ := by
  rw [seqPass, seqPass,
    seqFold_drop s0' c0' (chanKeys c0') ρ ρ true (fun c h => rfl),
    seqFold_drop s0 c0 (chanKeys c0) ρ ρ true (fun c h => rfl), hpend]
  exact seqFold_ext hprod htgt hsrcany hsrc hids _ _

/-- The loop model depends only on the graph structure and the order of the
channels that are still pending when the index meets the sentinel. -/
theorem fullLoop_pend {s0 s0' : List (String × SiteState)}
    {c0 c0' : List (String × ChannelState)}
    (hprod : ∀ s, prodOf s0' s = prodOf s0 s)
    (htgt : ∀ c, tgtsOf c0' c = tgtsOf c0 c)
    (hsrcany : ∀ s, isSourceAnywhere c0' s = isSourceAnywhere c0 s)
    (hsrc : ∀ c x, x ∈ srcsOf c0' c ↔ x ∈ srcsOf c0 c)
    (hids : ∀ x, x ∈ chanKeys c0' ↔ x ∈ chanKeys c0) :
    ∀ (fuel : Nat) (i : Int) (ρ : String → Option Int),
      ((chanKeys c0').filter (fun c =>
          !(decide (canonChan (canonIter s0 c0 (1000 - i).toNat i ρ) c < 1000)))
        = (chanKeys c0).filter (fun c =>
          !(decide (canonChan (canonIter s0 c0 (1000 - i).toNat i ρ) c < 1000)))) →
      fullLoop s0' c0' fuel i ρ = fullLoop s0 c0 fuel i ρ := by
  intro fuel
  induction fuel with
  | zero => intro i ρ hpend; rfl
  | succ fuel ih =>
      intro i ρ hpend
      by_cases hi : i < 1000
      · rw [fullLoop_lt s0' c0' fuel i ρ hi, fullLoop_lt s0 c0 fuel i ρ hi,
          canonProgress_ext hprod htgt hsrcany hsrc hids,
          canonStep_ext hprod htgt hsrcany hsrc hids]
        by_cases hprog : canonProgress s0 c0 ρ i = true
        · rw [if_pos hprog, if_pos hprog]
          apply ih (i + 1) (canonStep s0 c0 ρ i)
          rw [show (1000 - i).toNat = (1000 - (i + 1)).toNat + 1 from by omega] at hpend
          exact hpend
        · rw [if_neg hprog, if_neg hprog]
      · rw [fullLoop_ge s0' c0' fuel i ρ hi, fullLoop_ge s0 c0 fuel i ρ hi]
        rw [show (1000 - i).toNat = 0 from by omega, canonIter_zero] at hpend
        rw [seqPass_pend hprod htgt hsrcany hsrc hids ρ hpend]

/-- Each final channel entry carries the model level of its key. -/
theorem fullChans_entry_level (nw : Network) :
    ∀ p ∈ fullChansOf nw, p.2.level = canonChan (fullFinal nw).1 p.1 := by
  intro p hp
  rw [fullChansOf] at hp
  rcases List.mem_map.mp hp with ⟨q, hq, rfl⟩
  have hqY := (sortChansByLevel_perm _).mem_iff.mp hq
  rw [setChanLevels] at hqY
  rcases List.mem_map.mp hqY with ⟨r, hr, rfl⟩
  rfl

/-- The run-2 channel order, restricted to the channels still pending at
the sentinel collision, is the run-1 order: the stable sort keeps ties in
place, and the pending class is exactly the final level class `1000`. -/
theorem fullChans_pend (nw : Network) :
    (chanKeys (fullChansOf nw)).filter (fun c =>
        !(decide (canonChan (canonIter nw.sites nw.channels (1000 - (0 : Int)).toNat 0
            (fun _ => none)) c < 1000)))
      = (chanKeys nw.channels).filter (fun c =>
        !(decide (canonChan (canonIter nw.sites nw.channels (1000 - (0 : Int)).toNat 0
            (fun _ => none)) c < 1000))) := by
  have hval0 : ∀ (c : String) (j : Int), (fun _ => (none : Option Int)) c = some j → j < 0 := by
    intro c j h
    exact absurd h (by simp)
  have hkey : ∀ c, (!(decide (canonChan (canonIter nw.sites nw.channels
        (1000 - (0 : Int)).toNat 0 (fun _ => none)) c < 1000))) = true →
      canonChan (fullFinal nw).1 c = 1000 := by
    intro c hq
    have hσ : ¬ canonChan (canonIter nw.sites nw.channels (1000 - (0 : Int)).toNat 0
        (fun _ => none)) c < 1000 := by
      simpa using hq
    cases hfin : (fullFinal nw).1 c with
    | none => rw [canonChan, hfin]
    | some j =>
        have hfin' : (fullLoop nw.sites nw.channels (nw.channels.length + 10) 0
            (fun _ => none)).1 c = some j := hfin
        have hj1000 : j ≤ 1000 := fullLoop_values nw.sites nw.channels
          (nw.channels.length + 10) 0 (fun _ => none) (by omega) hval0 c j hfin'
        rw [canonChan, hfin]
        show j = 1000
        by_cases hj : j < 1000
        · exfalso
          have hlow := fullLoop_low_canonIter nw.sites nw.channels
            (nw.channels.length + 10) 0 (fun _ => none) (by omega) c j hfin' hj
          apply hσ
          rw [canonChan, hlow]
          exact hj
        · omega
  have hle : ∀ p ∈ setChanLevels nw.channels (canonChan (fullFinal nw).1),
      p.2.level ≤ 1000 := by
    intro p hp
    rw [setChanLevels] at hp
    rcases List.mem_map.mp hp with ⟨r, hr, rfl⟩
    show canonChan (fullFinal nw).1 r.1 ≤ 1000
    cases hfin : (fullFinal nw).1 r.1 with
    | none => rw [canonChan, hfin]
    | some j =>
        have hfin' : (fullLoop nw.sites nw.channels (nw.channels.length + 10) 0
            (fun _ => none)).1 r.1 = some j := hfin
        rw [canonChan, hfin]
        show j ≤ 1000
        exact fullLoop_values nw.sites nw.channels (nw.channels.length + 10) 0
          (fun _ => none) (by omega) hval0 r.1 j hfin'
  have hq1 : ∀ p ∈ setChanLevels nw.channels (canonChan (fullFinal nw).1),
      (fun c => !(decide (canonChan (canonIter nw.sites nw.channels
        (1000 - (0 : Int)).toNat 0 (fun _ => none)) c < 1000))) p.1 = true →
      p.2.level = 1000 := by
    intro p hp hq
    rw [setChanLevels] at hp
    rcases List.mem_map.mp hp with ⟨r, hr, rfl⟩
    exact hkey r.1 hq
  have hkeyseq : chanKeys (fullChansOf nw)
      = chanKeys (sortChansByLevel (setChanLevels nw.channels
          (canonChan (fullFinal nw).1))) := by
    rw [fullChansOf, chanKeys, chanKeys, List.map_map]
    exact List.map_congr_left (fun p _ => rfl)
  rw [hkeyseq, chanKeys, chanKeys, filter_map_fst, filter_map_fst]
  rw [filter_sortChans (fun c => !(decide (canonChan (canonIter nw.sites nw.channels
      (1000 - (0 : Int)).toNat 0 (fun _ => none)) c < 1000)))
    (setChanLevels nw.channels (canonChan (fullFinal nw).1)) hle hq1]
  exact filter_fst_setChanLevels nw.channels (canonChan (fullFinal nw).1)
    (fun c => !(decide (canonChan (canonIter nw.sites nw.channels
      (1000 - (0 : Int)).toNat 0 (fun _ => none)) c < 1000)))

/-- The second run realizes the same resolution map as the first. -/
theorem fullFinal_computeOrder (nw : Network) (hWF : WFNet nw) :
    fullFinal (computeOrder nw).nw = fullFinal nw := by
  rw [computeOrder_full nw hWF]
  show fullLoop (fullSitesOf nw) (fullChansOf nw)
      ((fullChansOf nw).length + 10) 0 (fun _ => none) = _
  rw [fullChans_length]
  exact fullLoop_pend (prodOf_fullSites nw) (tgtsOf_fullChans nw hWF.ndC)
    (isSourceAnywhere_fullChans nw hWF.ndC)
    (fun c x => srcsOf_fullChans_mem nw hWF.ndC c x)
    (fun x => (chanKeys_fullChans_perm nw).mem_iff)
    (nw.channels.length + 10) 0 (fun _ => none) (fullChans_pend nw)

/-- Claim C4: for every well-formed network (unique ids, every target
pointing back at its producing channel — the invariants the construction
API maintains), running `computeOrder` a second time on the network it
produced assigns every site and every channel the same level as the first
run.  Below the sentinel the pass outcome is order-free; at the collision
pass `i = 1000` the stable sort has preserved the relative order of
exactly the channels still pending there (they all end at level `1000`),
so the second run replays the first. -/
theorem computeOrder_idem_levels (nw : Network) (hWF : WFNet nw) :
    (∀ s, siteLevelOf (computeOrder (computeOrder nw).nw).nw s
        = siteLevelOf (computeOrder nw).nw s)
    ∧ (∀ c, chanLevelOf (computeOrder (computeOrder nw).nw).nw c
        = chanLevelOf (computeOrder nw).nw c) := by
  have hWF1 := WFNet_computeOrder_full nw hWF
  have hsites : (computeOrder nw).nw.sites = fullSitesOf nw := by
    rw [computeOrder_full nw hWF]
  have hchans : (computeOrder nw).nw.channels = fullChansOf nw := by
    rw [computeOrder_full nw hWF]
  constructor
  · intro s
    rw [computeOrder_full_siteLevelOf (computeOrder nw).nw hWF1 s,
      computeOrder_full_siteLevelOf nw hWF s, fullFinal_computeOrder nw hWF,
      hsites, hchans]
    rw [canonSite_ext (prodOf_fullSites nw) (tgtsOf_fullChans nw hWF.ndC)
      (isSourceAnywhere_fullChans nw hWF.ndC) (fullFinal nw).1 s]
    rw [fullSitesOf, dictFind_setLevels]
    cases dictFind nw.sites s <;> rfl
  · intro c
    rw [computeOrder_full_chanLevelOf (computeOrder nw).nw hWF1 c,
      computeOrder_full_chanLevelOf nw hWF c, fullFinal_computeOrder nw hWF, hchans]
    rw [dictFind_fullChans nw hWF.ndC c]
    cases dictFind nw.channels c <;> rfl

/-- A cycle member is pending below the sentinel and can only resolve at
the collision pass, which writes the sentinel level itself. -/
theorem cyclic_fullLoop (nw : Network) (S : List String)
    (hcyc : ∀ c ∈ S, ∃ s ∈ srcsOf nw.channels c, ∃ d ∈ S, prodOf nw.sites s = some d) :
    ∀ (fuel : Nat) (i : Int) (ρ : String → Option Int), i ≤ 1000 →
      (∀ c ∈ S, ρ c = none) →
      ∀ c ∈ S, (fullLoop nw.sites nw.channels fuel i ρ).1 c = none
        ∨ (fullLoop nw.sites nw.channels fuel i ρ).1 c = some 1000 := by
  intro fuel
  induction fuel with
  | zero => intro i ρ h1 hinv c hc; exact Or.inl (hinv c hc)
  | succ fuel ih =>
      intro i ρ h1 hinv c hc
      by_cases hi : i < 1000
      · rw [fullLoop_lt nw.sites nw.channels fuel i ρ hi]
        by_cases hprog : canonProgress nw.sites nw.channels ρ i = true
        · rw [if_pos hprog]
          exact ih (i + 1) (canonStep nw.sites nw.channels ρ i) (by omega)
            (cyclic_canonStep nw S hcyc ρ i hi hinv) c hc
        · rw [if_neg hprog]
          exact Or.inl (hinv c hc)
      · have hieq : i = 1000 := by omega
        subst hieq
        rw [fullLoop_ge nw.sites nw.channels fuel 1000 ρ (by omega)]
        have hor : (seqPass nw.sites nw.channels ρ).1 c = ρ c
            ∨ (seqPass nw.sites nw.channels ρ).1 c = some 1000 :=
          seqFold_none_or nw.sites nw.channels (chanKeys nw.channels) (ρ, true) c
        by_cases hdone : (seqPass nw.sites nw.channels ρ).2 = true
        · rw [if_pos hdone]
          rcases hor with h | h
          · exact Or.inl (h.trans (hinv c hc))
          · exact Or.inr h
        · rw [if_neg hdone]
          cases fuel with
          | zero =>
              rcases hor with h | h
              · exact Or.inl (h.trans (hinv c hc))
              · exact Or.inr h
          | succ f =>
              rcases hor with h | h
              · exact Or.inl (h.trans (hinv c hc))
              · exact Or.inr h

/-- Claim C5 (amended): a dependency cycle — a nonempty set `S` of
registered channels, each having a source site produced by a member of
`S` — leaves every channel of `S` at the unreachable sentinel `1000`
(below the sentinel a cycle member never resolves, and a resolution at the
collision pass `i = 1000` writes the level `1000` itself), and triggers
the unreachable-channels diagnostic.  The convergence-failure diagnostic
does NOT fire on a cycle — see the counterexample to the original claim. -/
theorem computeOrder_cycle (nw : Network) (hWF : WFNet nw) (S : List String) (hS : S ≠ [])
    (hSin : ∀ c ∈ S, c ∈ chanKeys nw.channels)
    (hcyc : ∀ c ∈ S, ∃ s ∈ srcsOf nw.channels c, ∃ d ∈ S, prodOf nw.sites s = some d) :
    (∀ c ∈ S, chanLevelOf (computeOrder nw).nw c = some 1000)
    ∧ (computeOrder nw).unreachableChannels ≠ [] := by
  have hfin : ∀ c ∈ S, canonChan (fullFinal nw).1 c = 1000 := by
    intro c hc
    rcases cyclic_fullLoop nw S hcyc (nw.channels.length + 10) 0 (fun _ => none)
        (by omega) (fun _ _ => rfl) c hc with h | h
    · have h' : (fullFinal nw).1 c = none := h
      rw [canonChan, h']
    · have h' : (fullFinal nw).1 c = some 1000 := h
      rw [canonChan, h']
  constructor
  · intro c hc
    rw [computeOrder_full_chanLevelOf nw hWF c]
    obtain ⟨cst, hcst⟩ : ∃ cst, dictFind nw.channels c = some cst := by
      cases hf : dictFind nw.channels c with
      | none => exact absurd (hSin c hc) (dictFind_eq_none_iff.mp hf)
      | some cst => exact ⟨cst, rfl⟩
    rw [hcst]
    show some (canonChan (fullFinal nw).1 c) = some 1000
    rw [hfin c hc]
  · rcases List.exists_mem_of_ne_nil S hS with ⟨c, hc⟩
    obtain ⟨cst, hcst⟩ : ∃ cst, dictFind nw.channels c = some cst := by
      cases hf : dictFind nw.channels c with
      | none => exact absurd (hSin c hc) (dictFind_eq_none_iff.mp hf)
      | some cst => exact ⟨cst, rfl⟩
    have hfind := dictFind_fullChans nw hWF.ndC c
    rw [hcst, Option.map_some'] at hfind
    have hmem := mem_of_dictFind_eq_some hfind
    rw [computeOrder_full nw hWF]
    show (((fullChansOf nw).filter (fun p => p.2.level = 1000)).map Prod.fst) ≠ []
    apply List.ne_nil_of_mem
    apply List.mem_map.mpr
    refine ⟨_, List.mem_filter.mpr ⟨hmem, ?_⟩, rfl⟩
    simpa using hfin c hc

/-- Witness for claim C4 (idempotence) on the A -> B network. -/
theorem computeOrder_idem_witness :
    siteLevelOf (computeOrder (computeOrder nwAB).nw).nw "_s1"
        = siteLevelOf (computeOrder nwAB).nw "_s1"
    ∧ chanLevelOf (computeOrder (computeOrder nwAB).nw).nw "_c0"
        = chanLevelOf (computeOrder nwAB).nw "_c0" := by
  have h := computeOrder_idem_levels nwAB ⟨by decide, by decide, by decide⟩
  exact ⟨h.1 "_s1", h.2 "_c0"⟩

/-- Witness for claim C5 (amended) on the two-channel cycle. -/
theorem computeOrder_cycle_witness :
    chanLevelOf (computeOrder cyc2).nw "_c0" = some 1000
    ∧ (computeOrder cyc2).unreachableChannels ≠ [] := by
  have h := computeOrder_cycle cyc2 ⟨by decide, by decide, by decide⟩
    ["_c0", "_c1"] (by decide) (by decide) (by decide)
  exact ⟨h.1 "_c0" (by decide), h.2⟩

end Aequitas
